import Mathlib

/- Verification of the notion-public-export repository (notion_public_export.py,
notion_import.py) against its natural-language specification.

Strings from the Python source are modelled as `List Char`.  Python dicts used
as insertion-ordered maps are modelled as association lists (`List (key × v)`)
with a replace-or-append insert, matching CPython semantics.  Recursions that
in Python run over an id-keyed graph (and therefore may in principle be fed a
cyclic input) take an explicit fuel argument; where the source recursion is
structurally bounded (the inline rich-text parser recurses only on strictly
shorter strings) the fuel is instantiated internally with `length + 1` and
proved sufficient, so the wrapped function is total and fuel-free.
-/

namespace NotionExport

/- Definitions. -/

/-- Whitespace set used by Python's `str.strip` and the regex class `\s`
(restricted to the ASCII whitespace characters, which are the only ones the
program ever produces). -/
def isWs (c : Char) : Bool :=
  c = ' ' || c = '\t' || c = '\n' || c = '\x0d' || c = '\x0b' || c = '\x0c'

/-- Python `str.strip()` on a character list. -/
def pyStrip (t : List Char) : List Char :=
  ((t.dropWhile isWs).reverse.dropWhile isWs).reverse

/-- Regex class `[0-9a-fA-F]`. -/
def isHexDigit (c : Char) : Bool :=
  (c ≥ '0' && c ≤ '9') || (c ≥ 'a' && c ≤ 'f') || (c ≥ 'A' && c ≤ 'F')

/-- Python `str.lower()` (ASCII range, which covers every character the
normalizers lowercase: hex digits and hyphens). -/
def lowerStr (t : List Char) : List Char :=
  t.map Char.toLower

/-- Boolean substring test, Python's `needle in haystack`. -/
def hasInfix (pat : List Char) (t : List Char) : Bool :=
  pat.isPrefixOf t ||
    match t with
    | [] => false
    | _ :: rest => hasInfix pat rest

/-- The backtick character (spelled via its code point). -/
def backtick : Char := Char.ofNat 96

/- `notion_import.py`, `create_page` (lines 660-693):
     initial_blocks = content_blocks[:100]
     remaining_blocks = content_blocks[100:]
     ... create call carries initial_blocks ...
     while remaining_blocks:
         chunk = remaining_blocks[:100]
         remaining_blocks = remaining_blocks[100:]
         ... append call carries chunk ...
   The network calls are modelled by returning the block lists each call
   carries: the initial create call plus the append calls in order. -/

variable {α : Type}

/-- Chunking loop of `create_page`: the successive `remaining_blocks[:100]`
slices passed to the append calls. -/
def appendChunks : List α → List (List α)
  | [] => []
  | x :: xs => (x :: xs).take 100 :: appendChunks ((x :: xs).drop 100)
termination_by l => l.length
decreasing_by
  simp only [List.length_drop, List.length_cons]
  omega

/-- Block lists carried by the calls `create_page` makes: the initial
create call (`content_blocks[:100]`) and the append calls. -/
def createPageCalls (content_blocks : List α) : List α × List (List α) :=
  (content_blocks.take 100, appendChunks (content_blocks.drop 100))

/- `notion_public_export.py`, `fetch_record_map` (lines 160-199).
   The opaque pagination cursor dict is modelled by its `stack` entry (the
   only field the loop inspects); a chunk response's `data.get("cursor", {})`
   that is missing or is the empty dict is modelled as `none`. -/

/-- Pagination cursor, modelled by its traversal stack. -/
structure Cursor where
  stack : List Nat
deriving DecidableEq, Repr

variable {κ V : Type} [DecidableEq κ]

/-- One `loadPageChunk` response: the `recordMap.block` mapping and the new
cursor (`none` when the response carries no usable cursor dict). -/
structure ChunkResp (κ V : Type) where
  blocks : List (κ × V)
  cursor : Option Cursor
deriving Repr

/-- Python dict single-key assignment: replace the value of an existing key
in place, otherwise append the new binding. -/
def dictInsert (m : List (κ × V)) (k : κ) (v : V) : List (κ × V) :=
  match m with
  | [] => [(k, v)]
  | (k', v') :: rest =>
    if k = k' then (k', v) :: rest else (k', v') :: dictInsert rest k v

/-- Python `dict.update`: insert every binding of `kvs` in order. -/
def dictUpdate (m : List (κ × V)) (kvs : List (κ × V)) : List (κ × V) :=
  kvs.foldl (fun acc kv => dictInsert acc kv.1 kv.2) m

/-- Association-list lookup (first binding wins, as in a Python dict whose
keys are unique). -/
def alookup (k : κ) : List (κ × V) → Option V
  | [] => none
  | (k', v) :: rest => if k = k' then some v else alookup k rest

/-- Main loop of `fetch_record_map`.  `resps` is the sequence of chunk
responses the endpoint returns (consumed front to back); the loop stops on an
empty block mapping, a missing cursor, a repeated cursor, or an empty cursor
stack, and also when the modelled response sequence is exhausted. -/
def fetchLoop : List (ChunkResp κ V) → Cursor → List (κ × V) → List (κ × V)
  | [], _, acc => acc
  | r :: rest, cur, acc =>
    match r.blocks with
    | [] => acc
    | b :: bs =>
      let acc := dictUpdate acc (b :: bs)
      match r.cursor with
      | none => acc
      | some nc => if nc = cur ∨ nc.stack = [] then acc else fetchLoop rest nc acc

/-- `fetch_record_map`: cursor starts as `{"stack": []}`, merged blocks start
empty; the returned record map is the accumulated block mapping. -/
def fetchRecordMap (resps : List (ChunkResp κ V)) : List (κ × V) :=
  fetchLoop resps ⟨[]⟩ []

/-- Block mappings of the chunks the loop actually merges, mirroring the stop
conditions of `fetchLoop`. -/
def consumedChunks : List (ChunkResp κ V) → Cursor → List (List (κ × V))
  | [], _ => []
  | r :: rest, cur =>
    match r.blocks with
    | [] => []
    | b :: bs =>
      (b :: bs) ::
        match r.cursor with
        | none => []
        | some nc => if nc = cur ∨ nc.stack = [] then [] else consumedChunks rest nc

/-- Last binding of `k` in a single chunk mapping (later duplicates inside one
chunk win under `dict.update`). -/
def lookupLast (k : κ) (kvs : List (κ × V)) : Option V :=
  alookup k kvs.reverse

/-- Right-biased union of a list of chunk mappings at key `k`: the value from
the latest chunk containing `k` (scanning the reversed chunk list). -/
def lastWins (k : κ) (chunks : List (List (κ × V))) : Option V :=
  chunks.reverse.findSome? (fun ch => lookupLast k ch)

/- `notion_public_export.py`, `_normalize_page_id` (lines 46-90) and
   `notion_import.py`, `_normalize_id` (lines 129-147).
   The regex searches are modelled by leftmost-position scans; the network
   fetch the exporter falls back to for an id-less URL is modelled by an
   explicit `fetch : Option (List Char)` argument (`none` = HTTP error,
   `some html` = the fetched page text). -/

/-- Window test for the regex `[0-9a-fA-F]{32}` anchored at the current
position: the next 32 characters exist and are all hex digits. -/
def hexWindow (t : List Char) : Prop :=
  (t.take 32).length = 32 ∧ (t.take 32).all isHexDigit = true

instance hexWindow.decPred : DecidablePred hexWindow := fun _ =>
  instDecidableAnd

/-- Leftmost match of `re.search(r'([0-9a-fA-F]{32})', t)`. -/
def searchHex32 : List Char → Option (List Char)
  | [] => none
  | c :: rest =>
    if hexWindow (c :: rest) then some ((c :: rest).take 32) else searchHex32 rest

/-- Consume exactly `n` hex digits (regex `[0-9a-fA-F]{n}`), returning the
digits and the remainder. -/
def takeHexN : Nat → List Char → Option (List Char × List Char)
  | 0, t => some ([], t)
  | _ + 1, [] => none
  | n + 1, c :: t =>
    if isHexDigit c then (takeHexN n t).map (fun p => (c :: p.1, p.2)) else none

/-- Consume one expected literal character. -/
def expectChar (c : Char) : List Char → Option (List Char)
  | [] => none
  | x :: r => if x = c then some r else none

/-- Text matched by the hyphenated-UUID regex, from its five hex sections. -/
def mkUuid (a b c d e : List Char) : List Char :=
  a ++ '-' :: b ++ '-' :: c ++ '-' :: d ++ '-' :: e

/-- Anchored match of the hyphenated-UUID regex
`[0-9a-fA-F]{8}-[0-9a-fA-F]{4}-[0-9a-fA-F]{4}-[0-9a-fA-F]{4}-[0-9a-fA-F]{12}`,
returning the matched text and the remainder. -/
def uuidAtR (t : List Char) : Option (List Char × List Char) :=
  (takeHexN 8 t).bind fun p1 =>
  (expectChar '-' p1.2).bind fun r2 =>
  (takeHexN 4 r2).bind fun p2 =>
  (expectChar '-' p2.2).bind fun r4 =>
  (takeHexN 4 r4).bind fun p3 =>
  (expectChar '-' p3.2).bind fun r6 =>
  (takeHexN 4 r6).bind fun p4 =>
  (expectChar '-' p4.2).bind fun r8 =>
  (takeHexN 12 r8).map fun p5 => (mkUuid p1.1 p2.1 p3.1 p4.1 p5.1, p5.2)

/-- Leftmost match of the hyphenated-UUID regex. -/
def searchUuid : List Char → Option (List Char)
  | [] => none
  | c :: rest =>
    match uuidAtR (c :: rest) with
    | some (u, _) => some u
    | none => searchUuid rest

/-- Literal-prefix consumption: `some` of the remainder when `p` is a prefix
of `t`. -/
def stripPrefix? (p t : List Char) : Option (List Char) :=
  if p.isPrefixOf t then some (t.drop p.length) else none

/-- Anchored match of `"pageId"\s*:\s*"(uuid)"` (the exporter's search in
fetched HTML). -/
def pageIdAt (t : List Char) : Option (List Char) :=
  match stripPrefix? ("\"pageId\"".toList) t with
  | none => none
  | some r1 =>
    match r1.dropWhile isWs with
    | ':' :: r3 =>
      (match (r3.dropWhile isWs) with
      | '"' :: r5 =>
        match uuidAtR r5 with
        | some (u, '"' :: _) => some u
        | _ => none
      | _ => none)
    | _ => none

/-- Leftmost match of the `"pageId"` JSON pattern. -/
def searchPageIdJson : List Char → Option (List Char)
  | [] => none
  | c :: rest =>
    match pageIdAt (c :: rest) with
    | some u => some u
    | none => searchPageIdJson rest

/-- Slice-and-join `f"{raw[0:8]}-{raw[8:12]}-{raw[12:16]}-{raw[16:20]}-{raw[20:32]}"`. -/
def hyphenate (raw : List Char) : List Char :=
  raw.take 8 ++ '-' :: ((raw.drop 8).take 4) ++ '-' :: ((raw.drop 12).take 4)
    ++ '-' :: ((raw.drop 16).take 4) ++ '-' :: ((raw.drop 20).take 12)

/-- Python `url_or_id.startswith(("http://", "https://"))`. -/
def startsHttpUrl (t : List Char) : Bool :=
  ("http://".toList).isPrefixOf t || ("https://".toList).isPrefixOf t

/-- Final return/raise sequence of `_normalize_page_id`: a found hyphenated
UUID is returned lowercased, else a found 32-hex run is lowercased and
hyphenated, else `ValueError` is raised. -/
def finishNormalize (m mu : Option (List Char)) : Except (List Char) (List Char) :=
  match mu with
  | some u => .ok (lowerStr u)
  | none =>
    match m with
    | some h => .ok (hyphenate (lowerStr h))
    | none => .error ("Could not find 32-character page id".toList)

/-- Exporter `_normalize_page_id`.  When neither a 32-hex run nor a
hyphenated UUID occurs in the input and the input is an http(s) URL, the
function fetches the page (`fetch`) and searches the HTML: first for the
`"pageId"` JSON entry, then for a hyphenated UUID, then for a 32-hex run. -/
def normalizePageId (fetch : Option (List Char)) (input : List Char) :
    Except (List Char) (List Char) :=
  let m := searchHex32 input
  let mu := searchUuid input
  if m = none ∧ mu = none ∧ startsHttpUrl input then
    match fetch with
    | none => .error ("Could not resolve page id from URL (HTTP error)".toList)
    | some html =>
      let mu2 :=
        match searchPageIdJson html with
        | some u => some u
        | none => searchUuid html
      let m2 := if mu2 = none then searchHex32 html else none
      finishNormalize m2 mu2
  else finishNormalize m mu

/-- Python `page_id.split("/")[-1]`: the text after the last slash. -/
def lastSlashSeg (t : List Char) : List Char :=
  (t.reverse.takeWhile (fun c => c ≠ '/')).reverse

/-- Python `page_id.split("?")[0]`: the text before the first question mark. -/
def stripQuery (t : List Char) : List Char :=
  t.takeWhile (fun c => c ≠ '?')

/-- Match of `re.search(r'([0-9a-fA-F]{32})$', t)`: the last 32 characters
when they are all hex digits (`$` also matches just before a final newline). -/
def matchHex32End (t : List Char) : Option (List Char) :=
  let core := if t.getLast? = some '\n' then t.dropLast else t
  if 32 ≤ core.length ∧ (core.drop (core.length - 32)).all isHexDigit = true then
    some (core.drop (core.length - 32))
  else none

/-- URL-part stripping at the start of `_normalize_id`: take the text after
the last slash when a slash is present, then the text before the first
question mark when one is present. -/
def urlStripped (page_id : List Char) : List Char :=
  let p1 := if hasInfix ("/".toList) page_id then lastSlashSeg page_id else page_id
  if hasInfix ("?".toList) p1 then stripQuery p1 else p1

/-- Importer `_normalize_id`: strip URL parts, then try the end-anchored
32-hex match, then a hyphenated UUID anywhere; otherwise the (stripped)
input is returned unchanged. -/
def normalizeId (page_id : List Char) : List Char :=
  let p2 := urlStripped page_id
  match matchHex32End p2 with
  | some raw => hyphenate (lowerStr raw)
  | none =>
    match searchUuid p2 with
    | some u => lowerStr u
    | none => p2

/-- Well-formedness of the five sections of a hyphenated UUID. -/
def uuidSections (a b c d e : List Char) : Prop :=
  a.length = 8 ∧ b.length = 4 ∧ c.length = 4 ∧ d.length = 4 ∧ e.length = 12 ∧
  a.all isHexDigit = true ∧ b.all isHexDigit = true ∧ c.all isHexDigit = true ∧
  d.all isHexDigit = true ∧ e.all isHexDigit = true

instance uuidSections.decPred (a b c d e : List Char) :
    Decidable (uuidSections a b c d e) := by
  unfold uuidSections; infer_instance

/-- URL shape used by claims C3: `pre/ name id q` where the id ends the last
path segment up to an optional query suffix. -/
def urlOf (pre name idpart q : List Char) : List Char :=
  pre ++ '/' :: (name ++ idpart ++ q)

/- Exporter `_rich_text_to_markdown` (notion_public_export.py lines 230-339)
   and importer `_parse_rich_text_recursive` (notion_import.py lines
   330-469).  An importer annotation dict is modelled by `Ann` (an absent
   key is a `false`/`none` field — the source only ever stores `True` or a
   color name).  The exporter's annotation entries `b/i/s/c/_/a/h` are
   modelled by `NAnn`; the page-mention (`p`) and link-mention (`lm`)
   entries are omitted from the model because they rewrite the span text
   through the title cache and a network fetch. -/

/-- Importer rich-text annotation dictionary. -/
structure Ann where
  bold : Bool := false
  italic : Bool := false
  strikethrough : Bool := false
  underline : Bool := false
  code : Bool := false
  color : Option (List Char) := none
deriving DecidableEq, Repr

/-- Empty annotation dictionary. -/
def Ann.empty : Ann := {}

/-- One importer rich-text segment: content, annotation dict, link target
(the `text.link` key, set only for `http`-prefixed link URLs). -/
structure Seg where
  content : List Char
  ann : Ann
  link : Option (List Char)
deriving DecidableEq, Repr

/-- Exporter-side annotation entry of a Notion rich-text part. -/
inductive NAnn where
  | b
  | i
  | s
  | c
  | u
  | a (url : List Char)
  | h (color : List Char)
deriving DecidableEq, Repr

/-- Flags accumulated by the exporter's annotation loop. -/
structure RFlags where
  bold : Bool := false
  italic : Bool := false
  strike : Bool := false
  code : Bool := false
  underline : Bool := false
  link : Option (List Char) := none
  highlight : Option (List Char) := none
deriving DecidableEq, Repr

/-- One iteration of the exporter's annotation loop. -/
def annStep (f : RFlags) : NAnn → RFlags
  | .b => {f with bold := true}
  | .i => {f with italic := true}
  | .s => {f with strike := true}
  | .c => {f with code := true}
  | .u => {f with underline := true}
  | .a url => {f with link := some url}
  | .h color =>
    if color ≠ [] ∧ color ≠ ("default".toList) then {f with highlight := some color}
    else f

/-- The exporter's annotation loop. -/
def computeFlags (anns : List NAnn) : RFlags := anns.foldl annStep {}

/-- The exporter's `COLOR_MAP` (Notion color name → CSS hex). -/
def COLOR_MAP : List (List Char × List Char) := [
  ("gray".toList, "#787774".toList),
  ("brown".toList, "#9F6B53".toList),
  ("orange".toList, "#D9730D".toList),
  ("yellow".toList, "#CB912F".toList),
  ("green".toList, "#448361".toList),
  ("blue".toList, "#337EA9".toList),
  ("purple".toList, "#9065B0".toList),
  ("pink".toList, "#C14C8A".toList),
  ("red".toList, "#D44C47".toList),
  ("gray_background".toList, "#F1F1EF".toList),
  ("brown_background".toList, "#F4EEEE".toList),
  ("orange_background".toList, "#FBECDD".toList),
  ("yellow_background".toList, "#FBF3DB".toList),
  ("green_background".toList, "#EDF3EC".toList),
  ("blue_background".toList, "#E7F3F8".toList),
  ("purple_background".toList, "#F6F3F9".toList),
  ("pink_background".toList, "#FAF1F5".toList),
  ("red_background".toList, "#FDEBEC".toList)]

/-- The importer's `CSS_TO_NOTION_COLOR` (CSS hex → Notion color name). -/
def CSS_TO_NOTION_COLOR : List (List Char × List Char) := [
  ("#787774".toList, "gray".toList),
  ("#9F6B53".toList, "brown".toList),
  ("#D9730D".toList, "orange".toList),
  ("#CB912F".toList, "yellow".toList),
  ("#448361".toList, "green".toList),
  ("#337EA9".toList, "blue".toList),
  ("#9065B0".toList, "purple".toList),
  ("#C14C8A".toList, "pink".toList),
  ("#D44C47".toList, "red".toList),
  ("#F1F1EF".toList, "gray_background".toList),
  ("#F4EEEE".toList, "brown_background".toList),
  ("#FBECDD".toList, "orange_background".toList),
  ("#FBF3DB".toList, "yellow_background".toList),
  ("#EDF3EC".toList, "green_background".toList),
  ("#E7F3F8".toList, "blue_background".toList),
  ("#F6F3F9".toList, "purple_background".toList),
  ("#FAF1F5".toList, "pink_background".toList),
  ("#FDEBEC".toList, "red_background".toList)]

/-- Strip one leading space (`if text and text[0] == " "`), returning the
stripped space and the rest. -/
def stripOneLead (t : List Char) : List Char × List Char :=
  match t with
  | [] => ([], [])
  | c :: rest => if c = ' ' then ([' '], rest) else ([], c :: rest)

/-- Strip one trailing space (`if text and text[-1:] == " "`), returning the
body and the stripped space. -/
def stripOneTrail (t : List Char) : List Char × List Char :=
  if t.getLast? = some ' ' then (t.dropLast, [' ']) else (t, [])

/-- Markdown wrapping applied by the exporter in source order: inline code,
strikethrough, underline, bold-and-italic / bold / italic, link. -/
def applyWraps (f : RFlags) (t : List Char) : List Char :=
  let t1 := if f.code then backtick :: t ++ [backtick] else t
  let t2 := if f.strike then ("~~".toList) ++ t1 ++ ("~~".toList) else t1
  let t3 := if f.underline then ("<u>".toList) ++ t2 ++ ("</u>".toList) else t2
  let t4 :=
    if f.bold && f.italic then ("***".toList) ++ t3 ++ ("***".toList)
    else if f.bold then ("**".toList) ++ t3 ++ ("**".toList)
    else if f.italic then ("*".toList) ++ t3 ++ ("*".toList)
    else t3
  match f.link with
  | some url => '[' :: t4 ++ ']' :: '(' :: url ++ [')']
  | none => t4

/-- Exporter rendering of one rich-text part (with `use_html_colors=True`):
process annotations, strip one leading/trailing space, wrap the non-empty
body, restore the spaces outside the markers, then wrap in a color or
background-color HTML span when the highlight color is in `COLOR_MAP`. -/
def renderSpan (text0 : List Char) (anns : List NAnn) : List Char :=
  let f := computeFlags anns
  let lead := (stripOneLead text0).1
  let t1 := (stripOneLead text0).2
  let t2 := (stripOneTrail t1).1
  let trail := (stripOneTrail t1).2
  let t3 := if t2 = [] then t2 else applyWraps f t2
  let t4 := lead ++ t3 ++ trail
  match f.highlight with
  | none => t4
  | some color =>
    match alookup color COLOR_MAP with
    | none => t4
    | some css =>
      if hasInfix ("_background".toList) color then
        ("<span style=\"background-color: ".toList) ++ css ++ ("\">".toList)
          ++ t4 ++ ("</span>".toList)
      else
        ("<span style=\"color: ".toList) ++ css ++ ("\">".toList)
          ++ t4 ++ ("</span>".toList)

/-- Exporter `_rich_text_to_markdown`: render every part and concatenate. -/
def renderRich (rich : List (List Char × List NAnn)) : List Char :=
  (rich.map (fun part => renderSpan part.1 part.2)).flatten

/-- Exporter `_rich_text_to_plain`: concatenate the raw part texts. -/
def plainText (rich : List (List Char × List NAnn)) : List Char :=
  (rich.map (fun part => part.1)).flatten

/-- Minimal split of `t` as `a ++ close ++ b` (leftmost occurrence of
`close`, `a` possibly empty) — the behavior of a non-greedy `(.*?)close`. -/
def findClose (close : List Char) : List Char → Option (List Char × List Char)
  | [] => if close.isPrefixOf ([] : List Char) then some ([], []) else none
  | c :: rest =>
    if close.isPrefixOf (c :: rest) then some ([], (c :: rest).drop close.length)
    else (findClose close rest).map (fun p => (c :: p.1, p.2))

/-- Minimal split of `t` as `a ++ close ++ b` with `a` non-empty — the
behavior of a non-greedy `(.+?)close`. -/
def findClosePos (close : List Char) : List Char → Option (List Char × List Char)
  | [] => none
  | c :: rest => (findClose close rest).map (fun p => (c :: p.1, p.2))

/-- Literal pieces of the three HTML patterns the importer matches. -/
def spanColorPre : List Char := "<span style=\"color:".toList

/-- Literal prefix of the background-color span pattern. -/
def spanBgPre : List Char := "<span style=\"background-color:".toList

/-- Literal `<u>`. -/
def uOpen : List Char := "<u>".toList

/-- Literal `</u>`. -/
def uClose : List Char := "</u>".toList

/-- Literal `</span>`. -/
def spanClose : List Char := "</span>".toList

/-- Anchored match of `<span style="color:\s*([^"]+)">(.*?)</span>(.*)`,
returning the stripped color value (the regex group followed by Python
`.strip()`), the inner text, and the remainder. -/
def matchColorSpan (t : List Char) : Option (List Char × List Char × List Char) :=
  (stripPrefix? spanColorPre t).bind fun r =>
  (findClose ['"'] r).bind fun rq =>
  if rq.1 = [] then none
  else
    (expectChar '>' rq.2).bind fun r2 =>
    (findClose spanClose r2).map fun pr => (pyStrip rq.1, pr.1, pr.2)

/-- Anchored match of
`<span style="background-color:\s*([^"]+)">(.*?)</span>(.*)`. -/
def matchBgSpan (t : List Char) : Option (List Char × List Char × List Char) :=
  (stripPrefix? spanBgPre t).bind fun r =>
  (findClose ['"'] r).bind fun rq =>
  if rq.1 = [] then none
  else
    (expectChar '>' rq.2).bind fun r2 =>
    (findClose spanClose r2).map fun pr => (pyStrip rq.1, pr.1, pr.2)

/-- Anchored match of `<u>(.*?)</u>(.*)`. -/
def matchUnderline (t : List Char) : Option (List Char × List Char) :=
  (stripPrefix? uOpen t).bind fun r =>
  findClose uClose r

/-- Anchored match of `marker(.+?)marker(.*)` (used for `***`, `**`, `*`,
`~~`). -/
def matchWrapPos (marker : List Char) (t : List Char) : Option (List Char × List Char) :=
  (stripPrefix? marker t).bind fun r =>
  findClosePos marker r

/-- Anchored match of the inline-code regex (backtick, one or more
non-backtick characters, backtick, remainder). -/
def matchCode (t : List Char) : Option (List Char × List Char) :=
  (expectChar backtick t).bind fun r =>
  (findClose [backtick] r).bind fun pr =>
  if pr.1 = [] then none else some pr

/-- Anchored match of `\[([^\]]+)\]\(([^)]+)\)(.*)`. -/
def matchLink (t : List Char) : Option (List Char × List Char × List Char) :=
  (expectChar '[' t).bind fun r =>
  (findClose [']'] r).bind fun pt =>
  if pt.1 = [] then none
  else
    (expectChar '(' pt.2).bind fun r2 =>
    (findClose [')'] r2).bind fun pu =>
    if pu.1 = [] then none else some (pt.1, pu.1, pu.2)

/-- The importer's special characters (`<`, `*`, `~`, backtick, `[`). -/
def isSpecial (c : Char) : Bool :=
  c = '<' || c = '*' || c = '~' || c = backtick || c = '['

/-- Importer lookup `CSS_TO_NOTION_COLOR.get(color_css, "default")`. -/
def cssToNotion (css : List Char) : List Char :=
  match alookup css CSS_TO_NOTION_COLOR with
  | some n => n
  | none => "default".toList

/-- One dispatch step of `_parse_rich_text_recursive`, parameterized by the
function used for the recursive calls.  The pattern order is the source
order: color span, background span, underline, bold-italic, bold, italic,
strikethrough, inline code, link, then the literal-text fallback (plain run
up to the next special character; a special character at the start that
matched no pattern is emitted as a one-character literal). -/
def parseRichStep (rec : List Char → Ann → List Seg) (t : List Char) (ann : Ann) :
    List Seg :=
  match t with
  | [] => []
  | _ :: _ =>
    match matchColorSpan t with
    | some (css, inner, remaining) =>
      rec inner {ann with color := some (cssToNotion css)} ++ rec remaining ann
    | none =>
    match matchBgSpan t with
    | some (css, inner, remaining) =>
      rec inner {ann with color := some (cssToNotion css)} ++ rec remaining ann
    | none =>
    match matchUnderline t with
    | some (inner, remaining) =>
      rec inner {ann with underline := true} ++ rec remaining ann
    | none =>
    match matchWrapPos ("***".toList) t with
    | some (inner, remaining) =>
      rec inner {ann with bold := true, italic := true} ++ rec remaining ann
    | none =>
    match matchWrapPos ("**".toList) t with
    | some (inner, remaining) =>
      rec inner {ann with bold := true} ++ rec remaining ann
    | none =>
    match matchWrapPos ("*".toList) t with
    | some (inner, remaining) =>
      rec inner {ann with italic := true} ++ rec remaining ann
    | none =>
    match matchWrapPos ("~~".toList) t with
    | some (inner, remaining) =>
      rec inner {ann with strikethrough := true} ++ rec remaining ann
    | none =>
    match matchCode t with
    | some (inner, remaining) =>
      rec inner {ann with code := true} ++ rec remaining ann
    | none =>
    match matchLink t with
    | some (txt, url, remaining) =>
      let linkSegs := (rec txt ann).map (fun sg =>
        if ("http".toList).isPrefixOf url then {sg with link := some url} else sg)
      linkSegs ++ rec remaining ann
    | none =>
      let pre := t.takeWhile (fun c => !(isSpecial c))
      if pre.length = 0 then
        { content := t.take 1, ann := ann, link := none } :: rec (t.drop 1) ann
      else if pre.length = t.length then
        [{ content := t, ann := ann, link := none }]
      else
        { content := pre, ann := ann, link := none } :: rec (t.drop pre.length) ann

/-- Fuel-indexed recursion for `_parse_rich_text_recursive`; every
recursive call of the source is on a strictly shorter string, so fuel
`length + 1` is enough (`parseRichF_fuel`). -/
def parseRichF : Nat → List Char → Ann → List Seg
  | 0, _, _ => []
  | fuel + 1, t, ann => parseRichStep (parseRichF fuel) t ann

/-- Total wrapper: `_parse_rich_text_recursive` itself. -/
def parseRich (t : List Char) (ann : Ann) : List Seg :=
  parseRichF (t.length + 1) t ann

/-- Importer `_rich_text`: empty text gives no segments; otherwise parse
recursively with empty annotations, falling back to one plain segment when
the parse yields nothing. -/
def richText (text : List Char) : List Seg :=
  if text = [] then []
  else
    let segments := parseRich text Ann.empty
    if segments = [] then [{ content := text, ann := Ann.empty, link := none }]
    else segments

/-- Exporter-side annotation list carrying a combination of bold, italic,
inline-code and an optional highlight color — the annotation shapes
quantified over by the round-trip claim. -/
def mkAnns (b i cd : Bool) (co : Option (List Char)) : List NAnn :=
  (if b then [NAnn.b] else []) ++ (if i then [NAnn.i] else []) ++
    (if cd then [NAnn.c] else []) ++
    (match co with
     | some c => [NAnn.h c]
     | none => [])

/-- Character-level view of a segment list: every character paired with its
annotation dictionary and link (the "annotation set attached to each
character"). -/
def flattenSegs (segs : List Seg) : List (Char × Ann × Option (List Char)) :=
  (segs.map (fun sg => sg.content.map (fun c => (c, sg.ann, sg.link)))).flatten

/- Exporter `_render_block` (notion_public_export.py lines 471-680),
restricted to the branches the column-list and callout claims are about
(`column_list`, `column`, `callout`) plus the plain `text` block used for
child content.  A record-map entry's `value` wrapper is elided: the store
maps a block id directly to its block value. -/

/-- Block types covered by the renderer model. -/
inductive EType where
  | column_list
  | column
  | callout
  | text
deriving DecidableEq, Repr

/-- The fields of a block value read by the modelled branches: `type`,
`alive`, `properties.title`, `content`, `format.page_icon`. -/
structure EBlock where
  type : EType
  alive : Option Bool := none
  title : List (List Char × List NAnn) := []
  content : List (List Char) := []
  icon : Option (List Char) := none
deriving DecidableEq, Repr

/-- The `columns_content` collection (lines 503-510): for each child id
resolving to a `column`-typed block, that column's — possibly empty — list
of child ids. -/
def columnsContent (store : List (List Char × EBlock))
    (child_ids : List (List Char)) : List (List (List Char)) :=
  child_ids.filterMap (fun cid =>
    match alookup cid store with
    | some cb => if cb.type = EType.column then some cb.content else none
    | none => none)

/-- Callout icon selection (lines 552-556): `format.page_icon` defaulting
to the bulb, with built-in icon paths replaced by the arrow fallback. -/
def calloutIcon (ic : Option (List Char)) : List Char :=
  match ic with
  | none => "💡".toList
  | some icon => if ("/icons/".toList).isPrefixOf icon then "➡️".toList else icon

/-- `_render_block`, fuel-indexed (every recursive call of the source is on
a child block, so any fuel at least the tree height suffices), returning
the text written to `out`. -/
def renderBlock (store : List (List Char × EBlock)) :
    Nat → List Char → Nat → List Char
  | 0, _, _ => []
  | fuel + 1, bid, indent =>
    match alookup bid store with
    | none => []
    | some b =>
      if b.alive = some false then []
      else
        let text := renderRich b.title
        match b.type with
        | EType.column_list =>
          if b.content = [] then []
          else
            let cols := columnsContent store b.content
            if 1 < cols.length then
              ("\n<table><tr>\n".toList) ++
                (cols.map (fun col =>
                  ("<td valign=\"top\">\n\n".toList) ++
                    (col.map (fun cid => renderBlock store fuel cid 0)).flatten ++
                    ("\n</td>\n".toList))).flatten ++
                ("</tr></table>\n\n".toList)
            else
              (cols.map (fun col =>
                (col.map (fun cid => renderBlock store fuel cid indent)).flatten)).flatten
        | EType.column => []
        | EType.callout =>
          let hoisted :=
            if pyStrip text = [] ∧ b.content ≠ [] then
              match b.content with
              | c0 :: restIds =>
                (match alookup c0 store with
                 | some fc => (renderRich fc.title, restIds)
                 | none => (text, c0 :: restIds))
              | [] => (text, ([] : List (List Char)))
            else (text, b.content)
          ('>' :: ' ' :: calloutIcon b.icon) ++ (' ' :: hoisted.1) ++ ("\n\n".toList)
            ++ (hoisted.2.map (fun cid => renderBlock store fuel cid indent)).flatten
        | EType.text =>
          (if text = [] then [] else '\n' :: (text ++ ['\n']))
            ++ (b.content.map (fun cid => renderBlock store fuel cid indent)).flatten

/-- Number of positions at which `pat` occurs in `t`. -/
def countOccs (pat t : List Char) : Nat :=
  (List.range (t.length + 1)).countP (fun k => pat.isPrefixOf (t.drop k))

/-- Callout demo store: a callout with empty own text whose first child is
the text block `Note: hello` and whose second child is the text block
`more`. -/
def c5Store : List (List Char × EBlock) := [
  ("root".toList, { type := EType.callout,
                    content := ["c1".toList, "c2".toList] }),
  ("c1".toList, { type := EType.text, title := [("Note: hello".toList, [])] }),
  ("c2".toList, { type := EType.text, title := [("more".toList, [])] })]

/-- Column demo store: a column list with two columns each holding one text
child. -/
def c8Store : List (List Char × EBlock) := [
  ("root".toList, { type := EType.column_list,
                    content := ["a".toList, "b".toList] }),
  ("a".toList, { type := EType.column, content := ["t1".toList] }),
  ("b".toList, { type := EType.column, content := ["t2".toList] }),
  ("t1".toList, { type := EType.text, title := [("L".toList, [])] }),
  ("t2".toList, { type := EType.text, title := [("R".toList, [])] })]

/-- Column demo store with one empty column: a column list whose first
column holds one text child and whose second column is empty. -/
def c8BadStore : List (List Char × EBlock) := [
  ("root".toList, { type := EType.column_list,
                    content := ["a".toList, "b".toList] }),
  ("a".toList, { type := EType.column, content := ["t1".toList] }),
  ("b".toList, { type := EType.column, content := [] }),
  ("t1".toList, { type := EType.text, title := [("L".toList, [])] })]

/- Exporter `_export_page` (notion_public_export.py lines 688-772): the
visited-set check before any fetch, the page write, and the record-map scan
recursing into `child_page`/`page` blocks and into collection members
returned by `query_collection`.  The record-map fetch and the collection
query are oracle tables in a `World`; directories, covers and the rendered
Markdown are irrelevant to the dedup claim and are not modelled. -/

/-- The exporter's process state: `seen_pages` plus the log of pages whose
`index.md` was actually written (in write order). -/
structure ExpState where
  seen : List (List Char)
  processed : List (List Char)
deriving DecidableEq, Repr

/-- Block types the `_export_page` scan dispatches on. -/
inductive PBType where
  | child_page
  | page
  | collection_view
  | other
deriving DecidableEq, Repr

/-- A scanned record-map block value: the fields read by the recursion loop
(lines 743-772). -/
structure PBlock where
  id : List Char
  alive : Option Bool := none
  type : PBType := PBType.other
  viewIds : List (List Char) := []
  collectionId : Option (List Char) := none
deriving DecidableEq, Repr

/-- What `fetch_record_map` yields for one page: the page block's plain
title (for the skip check) and the record map's block values in scan
order.  A page id absent from the table models a record map without a page
block for the id. -/
structure PageData where
  title : List Char
  blocks : List PBlock
deriving DecidableEq, Repr

/-- The network oracles: record maps per page id and `query_collection`
results per (collection id, view id). -/
structure World where
  pages : List (List Char × PageData)
  qc : List ((List Char × List Char) × List (List Char))
deriving DecidableEq, Repr

/-- `query_collection` lookup (absent entries yield no members). -/
def qcLookup (qc : List ((List Char × List Char) × List (List Char)))
    (cid v0 : List Char) : List (List Char) :=
  match alookup (cid, v0) qc with
  | some l => l
  | none => []

/-- The loop over collection member page ids (lines 770-772), parameterized
by the page-export recursor. -/
def exportIdsF (recPage : List Char → ExpState → ExpState) :
    List (List Char) → ExpState → ExpState
  | [], st => st
  | x :: xs, st => exportIdsF recPage xs (recPage x st)

/-- The record-map scan loop (lines 743-772), parameterized by the
page-export recursor: skip dead blocks and the page's own block, recurse
into `child_page`/`page` ids, and export the members of a
`collection_view`'s first view. -/
def exportBlocksF (recPage : List Char → ExpState → ExpState)
    (qc : List ((List Char × List Char) × List (List Char))) :
    List PBlock → List Char → ExpState → ExpState
  | [], _, st => st
  | bv :: rest, pid, st =>
    let st1 :=
      if bv.alive = some false then st
      else if bv.id = pid then st
      else
        let stA :=
          if bv.type = PBType.child_page ∨ bv.type = PBType.page then
            recPage bv.id st
          else st
        if bv.type = PBType.collection_view then
          match bv.collectionId, bv.viewIds with
          | some cid, v0 :: _ => exportIdsF recPage (qcLookup qc cid v0) stA
          | _, _ => stA
        else stA
    exportBlocksF recPage qc rest pid st1

/-- `_export_page`, fuel-indexed on the page-recursion depth: the seen
check precedes the fetch, the id is marked seen before fetching, a missing
page block or a skipped title returns with the id still marked, and
otherwise the page is written (logged in `processed`) and the scan loop
runs. -/
def exportPage (w : World) (skips : List (List Char)) :
    Nat → List Char → ExpState → ExpState
  | 0, _, st => st
  | fuel + 1, pid, st =>
    if pid ∈ st.seen then st
    else
      let st1 : ExpState := { seen := pid :: st.seen, processed := st.processed }
      match alookup pid w.pages with
      | none => st1
      | some pd =>
        if pd.title ∈ skips then st1
        else
          let st2 : ExpState :=
            { seen := st1.seen, processed := st1.processed ++ [pid] }
          exportBlocksF (exportPage w skips fuel) w.qc pd.blocks pid st2

/-- The dedup invariant: the write log has no duplicates and only holds
seen ids. -/
def ExpInv (st : ExpState) : Prop :=
  st.processed.Nodup ∧ ∀ p ∈ st.processed, p ∈ st.seen

instance ExpInv.dec (st : ExpState) : Decidable (ExpInv st) := by
  unfold ExpInv
  infer_instance

/-- Dual-reachability world: `x` is both a `child_page` of `root` and a
member of the collection embedded in `root`. -/
def c4World : World := {
  pages := [
    ("root".toList, { title := "Root".toList, blocks := [
      { id := "x".toList, type := PBType.child_page },
      { id := "cv1".toList, type := PBType.collection_view,
        viewIds := ["v1".toList], collectionId := some ("col".toList) }] }),
    ("x".toList, { title := "X".toList, blocks := [] })],
  qc := [(("col".toList, "v1".toList), ["x".toList])] }

/- Importer `_parse_markdown` (notion_import.py lines 154-297).  Lines are
lists of characters (split on newline happens before this function in the
model).  The three helper parsers that build composite blocks
(`_parse_table_columns`, `_parse_toggle`, `_image_block`) are oracle
parameters returning `Option NBlock`, mirroring the source's
`if column_blocks: append` guards.  The emoji alternatives and the
video/audio prefixes are the exact code points stored in the source file,
which holds mojibake byte sequences rather than the intended emojis. -/

/-- Imported Notion block (payloads are the texts the branch builders
receive). -/
inductive NBlock where
  | heading (lvl : Nat) (text : List Char)
  | divider
  | bullet (text : List Char)
  | numbered (text : List Char)
  | callout (icon text : List Char)
  | quote (text : List Char)
  | code (lang content : List Char)
  | embed (url : List Char)
  | bookmark (url : List Char)
  | paragraph (text : List Char)
deriving DecidableEq, Repr

/-- Join lines with a separator character (Python `sep.join(lines)`). -/
def joinSep (sep : Char) : List (List Char) → List Char
  | [] => []
  | [x] => x
  | x :: y :: rest => x ++ sep :: joinSep sep (y :: rest)

/-- Anchored match of `^\s*\d+\.\s` (the numbered-list dispatch rule). -/
def numberedMatch (l : List Char) : Bool :=
  let r := l.dropWhile isWs
  let ds := r.takeWhile Char.isDigit
  let r2 := r.dropWhile Char.isDigit
  !ds.isEmpty &&
    (match r2 with
     | '.' :: c :: _ => isWs c
     | _ => false)

/-- `re.sub(r"^\s*\d+\.\s", "", line)`: the line with the matched
numbered-list prefix removed. -/
def numTail (l : List Char) : List Char :=
  let r := l.dropWhile isWs
  let ds := r.takeWhile Char.isDigit
  let r2 := r.dropWhile Char.isDigit
  if ds.isEmpty then l
  else
    match r2 with
    | '.' :: c :: rest => if isWs c then rest else l
    | _ => l

/-- The literal alternatives of the callout-emoji regex, exactly as stored
in the source (mojibake code-point sequences). -/
def emojiAlts : List (List Char) := [
  [Char.ofNat 0xE2, Char.ofNat 0xA1, Char.ofNat 0xEF, Char.ofNat 0xB8],
  [Char.ofNat 0x11F, Char.ofNat 0x178, Char.ofNat 0x2019, Char.ofNat 0xA1],
  [Char.ofNat 0xE2, Char.ofNat 0x161, Char.ofNat 0xA0, Char.ofNat 0xEF, Char.ofNat 0xB8],
  [Char.ofNat 0xE2, Char.ofNat 0x2014],
  [Char.ofNat 0xE2, Char.ofNat 0x153, Char.ofNat 0x2026],
  [Char.ofNat 0xE2, Char.ofNat 0x152],
  [Char.ofNat 0x11F, Char.ofNat 0x178, Char.ofNat 0x201C],
  [Char.ofNat 0x11F, Char.ofNat 0x178, Char.ofNat 0x201D, Char.ofNat 0x2014],
  [Char.ofNat 0x11F, Char.ofNat 0x178, Char.ofNat 0x201C, Char.ofNat 0x152],
  [Char.ofNat 0x11F, Char.ofNat 0x178, Char.ofNat 0xAF],
  [Char.ofNat 0x11F, Char.ofNat 0x178, Char.ofNat 0x2019, Char.ofNat 0xAD],
  [Char.ofNat 0x11F, Char.ofNat 0x178, Char.ofNat 0x2019, Char.ofNat 0xAC],
  [Char.ofNat 0x11F, Char.ofNat 0x178, Char.ofNat 0x201C, Char.ofNat 0xA2],
  [Char.ofNat 0x11F, Char.ofNat 0x178, Char.ofNat 0x201D, Char.ofNat 0x201D],
  [Char.ofNat 0xE2, Char.ofNat 0xAD],
  [Char.ofNat 0x11F, Char.ofNat 0x178, Char.ofNat 0x161, Char.ofNat 0x20AC],
  [Char.ofNat 0x11F, Char.ofNat 0x178, Char.ofNat 0x2019, Char.ofNat 0xAA],
  [Char.ofNat 0x11F, Char.ofNat 0x178, Char.ofNat 0x2018, Char.ofNat 0x2030],
  [Char.ofNat 0x11F, Char.ofNat 0x178, Char.ofNat 0x2018, Char.ofNat 0x2020],
  [Char.ofNat 0x11F, Char.ofNat 0x178, Char.ofNat 0x2018, Char.ofNat 0x2021],
  [Char.ofNat 0xE2, Char.ofNat 0x153, Char.ofNat 0xA8],
  [Char.ofNat 0x11F, Char.ofNat 0x178, Char.ofNat 0x2030],
  [Char.ofNat 0x11F, Char.ofNat 0x178, Char.ofNat 0x160],
  [Char.ofNat 0x11F, Char.ofNat 0x178, Char.ofNat 0x201D, Char.ofNat 0xA5],
  [Char.ofNat 0x11F, Char.ofNat 0x178, Char.ofNat 0x2019, Char.ofNat 0xAF],
  [Char.ofNat 0x11F, Char.ofNat 0x178, Char.ofNat 0x2020],
  [Char.ofNat 0x11F, Char.ofNat 0x178],
  [Char.ofNat 0x11F, Char.ofNat 0x178, Char.ofNat 0x201C, Char.ofNat 0x161],
  [Char.ofNat 0x11F, Char.ofNat 0x178, Char.ofNat 0x201C, Char.ofNat 0x2013],
  [Char.ofNat 0x11F, Char.ofNat 0x178, Char.ofNat 0x201D, Char.ofNat 0x2019],
  [Char.ofNat 0x11F, Char.ofNat 0x178, Char.ofNat 0x201D, Char.ofNat 0x201C],
  [Char.ofNat 0xE2, Char.ofNat 0xB0],
  [Char.ofNat 0x11F, Char.ofNat 0x178, Char.ofNat 0x201C, Char.ofNat 0x2026],
  [Char.ofNat 0x11F, Char.ofNat 0x178, Char.ofNat 0x201C, Char.ofNat 0x2020]]

/-- First literal alternative of `emojiAlts` matching a prefix of `t`. -/
def emojiAltLits : List (List Char) → List Char → Option (List Char × List Char)
  | [], _ => none
  | a :: rest, t =>
    match stripPrefix? a t with
    | some r => some (a, r)
    | none => emojiAltLits rest t

/-- The emoji alternation: a code point in `U+1F300-U+1F9FF` first, then
the literal alternatives in source order. -/
def emojiAlt (t : List Char) : Option (List Char × List Char) :=
  match t with
  | c :: rest =>
    if 0x1F300 ≤ c.toNat ∧ c.toNat ≤ 0x1F9FF then some ([c], rest)
    else emojiAltLits emojiAlts t
  | [] => none

/-- Anchored match of the callout regex `^(emoji)\s*(.*)`: the icon and the
text after the skipped whitespace. -/
def emojiIcon? (t : List Char) : Option (List Char × List Char) :=
  (emojiAlt t).map (fun p => (p.1, p.2.dropWhile isWs))

/-- Existence of a match for `^\[.+\]\(.+\)$` on the stripped line: a
leftmost minimal split `[a](...` with non-empty `a` whose remainder is a
non-empty body ending in `)`. -/
def bookmarkMatch (s : List Char) : Bool :=
  match s with
  | '[' :: rest =>
    (match findClosePos ("](".toList) rest with
     | some pr => decide (pr.2.getLast? = some ')') && decide (2 ≤ pr.2.length)
     | none => false)
  | _ => false

/-- Anchored match of the image regex `!\[([^\]]*)\]\(([^)]+)\)`: alt text
(possibly empty) and source. -/
def matchImage (t : List Char) : Option (List Char × List Char) :=
  (stripPrefix? ("![".toList) t).bind fun r =>
  (findClose [']'] r).bind fun pa =>
  (expectChar '(' pa.2).bind fun r2 =>
  (findClose [')'] r2).bind fun pu =>
  if pu.1 = [] then none else some (pa.1, pu.1)

/-- The raw video/audio marker prefix (mojibake of an intended play mark),
exactly as stored in the source. -/
def embedPre1 : List Char := ['[', Char.ofNat 0xE2, Char.ofNat 0x2013, Char.ofNat 0xB6]

/-- The raw second video/audio marker prefix (mojibake of an intended
speaker mark), exactly as stored in the source. -/
def embedPre2 : List Char :=
  ['[', Char.ofNat 0x11F, Char.ofNat 0x178, Char.ofNat 0x201D, Char.ofNat 0x160]

/-- Paragraph-absorption condition (the while-loop test of lines 280-287):
next line strips non-empty, does not start with `#`, `-`, `>`, a code fence
or `![`, and does not strip to `---`. -/
def absorbCond (l : List Char) : Bool :=
  !(pyStrip l).isEmpty &&
    !(("#".toList).isPrefixOf l) &&
    !(("-".toList).isPrefixOf l) &&
    !((">".toList).isPrefixOf l) &&
    !(("```".toList).isPrefixOf l) &&
    !(("![".toList).isPrefixOf l) &&
    !(pyStrip l == ("---".toList))

/-- The paragraph while loop: split the following lines into the absorbed
prefix and the remainder. -/
def paraCollect : List (List Char) → List (List Char) × List (List Char)
  | [] => ([], [])
  | nxt :: rest =>
    if absorbCond nxt then
      let p := paraCollect rest
      (nxt :: p.1, p.2)
    else ([], nxt :: rest)

/-- The table collection loop (lines 216-225): keep consuming while the
previously collected line does not contain `</table>`. -/
def tableCollect (prev : List Char) : List (List Char) → List (List Char) × List (List Char)
  | [] => ([], [])
  | nxt :: rest =>
    if hasInfix ("</table>".toList) prev then ([], nxt :: rest)
    else
      let p := tableCollect nxt rest
      (nxt :: p.1, p.2)

/-- The details collection loop (lines 230-239): consume while the nesting
depth is positive, adjusting it by the `<details>`/`</details>` tags of
each consumed line. -/
def detailsCollect (depth : Nat) : List (List Char) → List (List Char) × List (List Char)
  | [] => ([], [])
  | nxt :: rest =>
    if depth = 0 then ([], nxt :: rest)
    else
      let d1 := if hasInfix ("<details>".toList) nxt then depth + 1 else depth
      let d2 := if hasInfix ("</details>".toList) nxt then d1 - 1 else d1
      let p := detailsCollect d2 rest
      (nxt :: p.1, p.2)

/-- `_parse_markdown`'s main loop, fuel-indexed (each iteration consumes at
least one line, so fuel `lines.length + 1` suffices), dispatching in source
order.  `tp`, `tg`, `im` are the table, toggle and image block builders. -/
def parseMd (tp tg : List Char → Option NBlock)
    (im : List Char → List Char → Option NBlock) :
    Nat → List (List Char) → List NBlock
  | 0, _ => []
  | _ + 1, [] => []
  | fuel + 1, line :: rest =>
    if pyStrip line = [] then parseMd tp tg im fuel rest
    else if ("# ".toList).isPrefixOf line then
      NBlock.heading 1 (pyStrip (line.drop 2)) :: parseMd tp tg im fuel rest
    else if ("## ".toList).isPrefixOf line then
      NBlock.heading 2 (pyStrip (line.drop 3)) :: parseMd tp tg im fuel rest
    else if ("### ".toList).isPrefixOf line then
      NBlock.heading 3 (pyStrip (line.drop 4)) :: parseMd tp tg im fuel rest
    else if pyStrip line = ("---".toList) then
      NBlock.divider :: parseMd tp tg im fuel rest
    else if ("- ".toList).isPrefixOf (pyStrip line) then
      NBlock.bullet ((pyStrip line).drop 2) :: parseMd tp tg im fuel rest
    else if numberedMatch line then
      NBlock.numbered (numTail line) :: parseMd tp tg im fuel rest
    else if ("> ".toList).isPrefixOf line then
      (match emojiIcon? (pyStrip (line.drop 2)) with
       | some p => NBlock.callout p.1 p.2
       | none => NBlock.quote (pyStrip (line.drop 2))) :: parseMd tp tg im fuel rest
    else if ("```".toList).isPrefixOf line then
      NBlock.code (pyStrip (line.drop 3))
          (joinSep '\n' (rest.takeWhile (fun l2 => !(("```".toList).isPrefixOf l2)))) ::
        parseMd tp tg im fuel
          ((rest.dropWhile (fun l2 => !(("```".toList).isPrefixOf l2))).drop 1)
    else if ("<table>".toList).isPrefixOf (pyStrip line) then
      (match tp (joinSep '\n' (line :: (tableCollect line rest).1)) with
       | some b => b :: parseMd tp tg im fuel (tableCollect line rest).2
       | none => parseMd tp tg im fuel (tableCollect line rest).2)
    else if ("<details>".toList).isPrefixOf (pyStrip line) then
      (match tg (joinSep '\n' (line :: (detailsCollect 1 rest).1)) with
       | some b => b :: parseMd tp tg im fuel (detailsCollect 1 rest).2
       | none => parseMd tp tg im fuel (detailsCollect 1 rest).2)
    else if ("![".toList).isPrefixOf (pyStrip line) then
      (match matchImage (pyStrip line) with
       | some p =>
         (match im p.1 p.2 with
          | some b => b :: parseMd tp tg im fuel rest
          | none => parseMd tp tg im fuel rest)
       | none => parseMd tp tg im fuel rest)
    else if embedPre1.isPrefixOf (pyStrip line) || embedPre2.isPrefixOf (pyStrip line) then
      (match matchLink (pyStrip line) with
       | some p => NBlock.embed p.2.1 :: parseMd tp tg im fuel rest
       | none => parseMd tp tg im fuel rest)
    else if bookmarkMatch (pyStrip line) then
      (match matchLink (pyStrip line) with
       | some p =>
         (if ("http".toList).isPrefixOf p.2.1 then NBlock.bookmark p.2.1
          else NBlock.paragraph p.1) :: parseMd tp tg im fuel rest
       | none => parseMd tp tg im fuel rest)
    else
      let p := paraCollect rest
      let text := joinSep ' ' (line :: p.1)
      if pyStrip text = [] then parseMd tp tg im fuel p.2
      else NBlock.paragraph text :: parseMd tp tg im fuel p.2

/- Theorems. -/

theorem appendChunks_length_le (l : List α) : ∀ c ∈ appendChunks l, c.length ≤ 100 := by
  induction l using appendChunks.induct with
  | case1 => intro c hc; simp [appendChunks] at hc
  | case2 x xs ih =>
    intro c hc
    rw [appendChunks] at hc
    rcases List.mem_cons.mp hc with h | h
    · subst h; simp
    · exact ih c h

theorem appendChunks_flatten (l : List α) : (appendChunks l).flatten = l := by
  induction l using appendChunks.induct with
  | case1 => simp [appendChunks]
  | case2 x xs ih =>
    rw [appendChunks]
    simp only [List.flatten_cons, ih, List.take_append_drop]

theorem alookup_append (k : κ) (l l' : List (κ × V)) :
    alookup k (l ++ l') =
      match alookup k l with
      | some v => some v
      | none => alookup k l' := by
  induction l with
  | nil => simp [alookup]
  | cons kv rest ih =>
    obtain ⟨k₀, v₀⟩ := kv
    by_cases hk : k = k₀ <;> simp [alookup, hk, ih]

theorem alookup_dictInsert (m : List (κ × V)) (k k' : κ) (v : V) :
    alookup k (dictInsert m k' v) = if k = k' then some v else alookup k m := by
  induction m with
  | nil => by_cases h : k = k' <;> simp [dictInsert, alookup, h]
  | cons kv rest ih =>
    obtain ⟨k₀, v₀⟩ := kv
    by_cases h1 : k' = k₀
    · subst h1
      by_cases h2 : k = k' <;> simp [dictInsert, alookup, h2]
    · by_cases h2 : k = k₀
      · subst h2
        have : ¬ k = k' := fun h => h1 h.symm
        simp [dictInsert, if_neg h1, alookup, this]
      · simp [dictInsert, if_neg h1, alookup, h2, ih]

theorem alookup_dictUpdate (m : List (κ × V)) (kvs : List (κ × V)) (k : κ) :
    alookup k (dictUpdate m kvs) =
      match lookupLast k kvs with
      | some v => some v
      | none => alookup k m := by
  induction kvs generalizing m with
  | nil => simp [dictUpdate, lookupLast, alookup]
  | cons kv rest ih =>
    obtain ⟨k₀, v₀⟩ := kv
    simp only [dictUpdate, List.foldl_cons]
    rw [show List.foldl (fun acc kv => dictInsert acc kv.1 kv.2)
          (dictInsert m k₀ v₀) rest = dictUpdate (dictInsert m k₀ v₀) rest from rfl]
    rw [ih]
    simp only [lookupLast, List.reverse_cons]
    rw [alookup_append]
    cases h : alookup k rest.reverse with
    | some v => rfl
    | none =>
      simp only [alookup, alookup_dictInsert]
      by_cases hk : k = k₀ <;> simp [hk]

theorem lastWins_cons (k : κ) (ch : List (κ × V)) (chs : List (List (κ × V))) :
    lastWins k (ch :: chs) =
      match lastWins k chs with
      | some v => some v
      | none => lookupLast k ch := by
  simp only [lastWins, List.reverse_cons, findSome?_append_aux]
  cases chs.reverse.findSome? (fun ch => lookupLast k ch) with
  | none => simp [List.findSome?]; cases lookupLast k ch <;> rfl
  | some v => rfl
where
  findSome?_append_aux {β : Type} (f : List (κ × V) → Option β) :
      ∀ (l₁ l₂ : List (List (κ × V))),
        (l₁ ++ l₂).findSome? f =
          match l₁.findSome? f with
          | some v => some v
          | none => l₂.findSome? f := by
    intro l₁ l₂
    induction l₁ with
    | nil => simp [List.findSome?]
    | cons a l ih =>
      simp only [List.cons_append, List.findSome?]
      cases f a with
      | some v => rfl
      | none => exact ih

theorem fetchLoop_lastWins (resps : List (ChunkResp κ V)) (cur : Cursor)
    (acc : List (κ × V)) (k : κ) :
    alookup k (fetchLoop resps cur acc) =
      match lastWins k (consumedChunks resps cur) with
      | some v => some v
      | none => alookup k acc := by
  induction resps generalizing cur acc with
  | nil => simp [fetchLoop, consumedChunks, lastWins, List.findSome?]
  | cons r rest ih =>
    cases hb : r.blocks with
    | nil => simp [fetchLoop, consumedChunks, hb, lastWins, List.findSome?]
    | cons b bs =>
      cases hc : r.cursor with
      | none =>
        simp only [fetchLoop, consumedChunks, hb, hc]
        rw [alookup_dictUpdate, lastWins_cons]
        simp only [lastWins, List.reverse_nil, List.findSome?]
      | some nc =>
        by_cases hstop : nc = cur ∨ nc.stack = []
        · simp only [fetchLoop, consumedChunks, hb, hc, if_pos hstop]
          rw [alookup_dictUpdate, lastWins_cons]
          simp only [lastWins, List.reverse_nil, List.findSome?]
        · simp only [fetchLoop, consumedChunks, hb, hc, if_neg hstop]
          rw [ih, lastWins_cons, alookup_dictUpdate]
          cases lastWins k (consumedChunks rest nc) <;>
            cases lookupLast k (b :: bs) <;> rfl

theorem takeHexN_split {n : Nat} {t a r : List Char}
    (h : takeHexN n t = some (a, r)) : t = a ++ r := by
  induction n generalizing t a r with
  | zero =>
    simp only [takeHexN, Option.some.injEq, Prod.mk.injEq] at h
    rw [← h.1, ← h.2]; rfl
  | succ n ih =>
    cases t with
    | nil => simp [takeHexN] at h
    | cons c rest =>
      simp only [takeHexN] at h
      by_cases hc : isHexDigit c
      · rw [if_pos hc] at h
        cases hp : takeHexN n rest with
        | none => rw [hp] at h; simp at h
        | some p =>
          obtain ⟨a', r'⟩ := p
          rw [hp] at h
          simp only [Option.map_some', Option.some.injEq, Prod.mk.injEq] at h
          obtain ⟨ha, hr⟩ := h
          subst ha; subst hr
          simp only [List.cons_append]
          rw [← ih hp]
      · rw [if_neg hc] at h; cases h

theorem takeHexN_exact {n : Nat} {a : List Char} (r : List Char)
    (hlen : a.length = n) (hhex : a.all isHexDigit = true) :
    takeHexN n (a ++ r) = some (a, r) := by
  induction a generalizing n with
  | nil => subst hlen; simp [takeHexN]
  | cons c cs ih =>
    subst hlen
    simp only [List.all_cons, Bool.and_eq_true] at hhex
    simp [takeHexN, hhex.1, ih rfl hhex.2]

theorem uuidAtR_no_hyphen {t : List Char} (h : '-' ∉ t) : uuidAtR t = none := by
  rw [uuidAtR]
  cases h8 : takeHexN 8 t with
  | none => rfl
  | some p =>
    obtain ⟨a, r1⟩ := p
    have hsplit := takeHexN_split h8
    cases r1 with
    | nil => rfl
    | cons c r2 =>
      by_cases hc : c = '-'
      · exfalso
        apply h
        rw [hsplit, hc]
        exact List.mem_append_right _ (List.mem_cons_self _ _)
      · simp [expectChar, hc, Option.bind]

theorem searchUuid_no_hyphen {t : List Char} (h : '-' ∉ t) : searchUuid t = none := by
  induction t with
  | nil => rfl
  | cons c rest ih =>
    rw [searchUuid, uuidAtR_no_hyphen h]
    exact ih (fun hm => h (List.mem_cons_of_mem _ hm))

theorem searchHex32_short {t : List Char} (h : t.length < 32) : searchHex32 t = none := by
  induction t with
  | nil => rfl
  | cons c rest ih =>
    rw [searchHex32, if_neg, ih (lt_of_le_of_lt (Nat.le_succ _) h)]
    intro hw
    have := hw.1
    simp only [List.length_take] at this
    omega

theorem hexWindow_hyphen {x y : List Char} (hx : x.length < 32) :
    ¬ hexWindow (x ++ '-' :: y) := by
  intro hw
  obtain ⟨hlen, hall⟩ := hw
  have hmem : '-' ∈ (x ++ '-' :: y).take 32 := by
    rw [List.take_append_eq_append_take, List.take_of_length_le (le_of_lt (by omega))]
    refine List.mem_append_right _ ?_
    have : 1 ≤ 32 - x.length := by omega
    cases h32 : 32 - x.length with
    | zero => omega
    | succ k => simp [List.take]
  have := (List.all_eq_true.mp hall) '-' hmem
  simp [isHexDigit] at this

theorem searchHex32_hyphen_blocked {x y : List Char}
    (hx : x.length < 32) (hy : y.length < 32) :
    searchHex32 (x ++ '-' :: y) = none := by
  induction x with
  | nil =>
    have hnw : ¬ hexWindow ('-' :: y) := by
      have := hexWindow_hyphen (x := []) (y := y) (by simp)
      simpa using this
    simp only [List.nil_append]
    rw [searchHex32, if_neg hnw]
    exact searchHex32_short hy
  | cons c x' ih =>
    have hnw : ¬ hexWindow (c :: (x' ++ '-' :: y)) := by
      have := hexWindow_hyphen (x := c :: x') (y := y) hx
      simpa using this
    simp only [List.cons_append]
    rw [searchHex32, if_neg hnw]
    exact ih (lt_of_le_of_lt (Nat.le_succ _) hx)

theorem searchHex32_exact {t : List Char} (hlen : t.length = 32)
    (hhex : t.all isHexDigit = true) : searchHex32 t = some t := by
  cases t with
  | nil => simp at hlen
  | cons c rest =>
    rw [searchHex32, if_pos]
    · rw [List.take_of_length_le (le_of_eq hlen)]
    · constructor
      · rw [List.take_of_length_le (le_of_eq hlen)]; exact hlen
      · rw [List.take_of_length_le (le_of_eq hlen)]; exact hhex

theorem expectChar_hyphen (rest : List Char) :
    expectChar '-' ('-' :: rest) = some rest := rfl

theorem uuidAtR_mk {a b c d e : List Char} (r : List Char)
    (h : uuidSections a b c d e) :
    uuidAtR (mkUuid a b c d e ++ r) = some (mkUuid a b c d e, r) := by
  obtain ⟨la, lb, lc, ld, le, ha, hb, hc, hd, he⟩ := h
  rw [uuidAtR]
  rw [show mkUuid a b c d e ++ r =
    a ++ '-' :: (b ++ '-' :: (c ++ '-' :: (d ++ '-' :: (e ++ r)))) by
      simp [mkUuid, List.append_assoc]]
  rw [takeHexN_exact _ la ha]
  simp only [Option.some_bind, expectChar_hyphen]
  rw [takeHexN_exact _ lb hb]
  simp only [Option.some_bind, expectChar_hyphen]
  rw [takeHexN_exact _ lc hc]
  simp only [Option.some_bind, expectChar_hyphen]
  rw [takeHexN_exact _ ld hd]
  simp only [Option.some_bind, expectChar_hyphen]
  rw [takeHexN_exact _ le he]
  simp [mkUuid]

theorem searchUuid_mk {a b c d e : List Char} (h : uuidSections a b c d e) :
    searchUuid (mkUuid a b c d e) = some (mkUuid a b c d e) := by
  have hat := uuidAtR_mk [] h
  rw [List.append_nil] at hat
  have h8 := h.1
  cases a with
  | nil => simp at h8
  | cons a0 a' =>
    have hm : mkUuid (a0 :: a') b c d e =
        a0 :: (a' ++ '-' :: b ++ '-' :: c ++ '-' :: d ++ '-' :: e) := by
      simp [mkUuid]
    rw [hm, searchUuid, ← hm, hat]

theorem mkUuid_mem {a b c d e : List Char} (h : uuidSections a b c d e)
    {x : Char} (hx : x ∈ mkUuid a b c d e) : isHexDigit x = true ∨ x = '-' := by
  obtain ⟨-, -, -, -, -, ha, hb, hc, hd, he⟩ := h
  have Ha := List.all_eq_true.mp ha x
  have Hb := List.all_eq_true.mp hb x
  have Hc := List.all_eq_true.mp hc x
  have Hd := List.all_eq_true.mp hd x
  have He := List.all_eq_true.mp he x
  simp only [mkUuid, List.mem_append, List.mem_cons] at hx
  tauto

theorem mkUuid_length {a b c d e : List Char} (h : uuidSections a b c d e) :
    (mkUuid a b c d e).length = 36 := by
  obtain ⟨la, lb, lc, ld, le, -⟩ := h
  simp only [mkUuid, List.length_append, List.length_cons]
  omega

theorem takeWhile_append_sat {p : Char → Bool} {l₁ l₂ : List Char} {a : Char}
    (h₁ : ∀ x ∈ l₁, p x = true) (ha : p a = false) :
    (l₁ ++ a :: l₂).takeWhile p = l₁ := by
  induction l₁ with
  | nil => simp [List.takeWhile_cons, ha]
  | cons x xs ih =>
    have hx := h₁ x (List.mem_cons_self _ _)
    simp [List.takeWhile_cons, hx,
      ih (fun y hy => h₁ y (List.mem_cons_of_mem _ hy))]

theorem dropWhile_append_sat {p : Char → Bool} {l₁ l₂ : List Char} {a : Char}
    (h₁ : ∀ x ∈ l₁, p x = true) (ha : p a = false) :
    (l₁ ++ a :: l₂).dropWhile p = a :: l₂ := by
  induction l₁ with
  | nil => simp [List.dropWhile_cons, ha]
  | cons x xs ih =>
    have hx := h₁ x (List.mem_cons_self _ _)
    simp [List.dropWhile_cons, hx,
      ih (fun y hy => h₁ y (List.mem_cons_of_mem _ hy))]

theorem lastSlashSeg_append {x s : List Char} (h : '/' ∉ s) :
    lastSlashSeg (x ++ '/' :: s) = s := by
  have hall : ∀ y ∈ s.reverse, (decide ¬(y = '/')) = true := by
    intro y hy
    have hmem : y ∈ s := List.mem_reverse.mp hy
    have hne : ¬ (y = '/') := fun heq => h (heq ▸ hmem)
    simpa using hne
  have hslash : (decide ¬(('/' : Char) = '/')) = false := by simp
  unfold lastSlashSeg
  rw [List.reverse_append, List.reverse_cons, List.append_assoc,
    List.singleton_append]
  rw [takeWhile_append_sat hall hslash, List.reverse_reverse]

theorem stripQuery_append {x y : List Char} (h : '?' ∉ x) :
    stripQuery (x ++ '?' :: y) = x := by
  have hall : ∀ c ∈ x, (decide ¬(c = '?')) = true := by
    intro c hc
    have : ¬ (c = '?') := fun heq => h (heq ▸ hc)
    simpa using this
  have hq : (decide ¬(('?' : Char) = '?')) = false := by simp
  unfold stripQuery
  rw [takeWhile_append_sat hall hq]

theorem stripQuery_of_not_mem {x : List Char} (h : '?' ∉ x) : stripQuery x = x := by
  unfold stripQuery
  apply List.takeWhile_eq_self_iff.mpr
  intro c hc
  have : ¬ (c = '?') := fun heq => h (heq ▸ hc)
  simpa using this

theorem hasInfix_single {c : Char} {t : List Char} : hasInfix [c] t = true ↔ c ∈ t := by
  induction t with
  | nil => simp [hasInfix, List.isPrefixOf]
  | cons d rest ih =>
    rw [hasInfix]
    simp only [List.isPrefixOf, Bool.or_eq_true, Bool.and_eq_true, List.mem_cons]
    constructor
    · rintro (⟨hbeq, -⟩ | hrest)
      · exact Or.inl (beq_iff_eq.mp hbeq)
      · exact Or.inr (ih.mp hrest)
    · rintro (heq | hmem)
      · exact Or.inl ⟨beq_iff_eq.mpr heq, trivial⟩
      · exact Or.inr (ih.mpr hmem)

theorem hasInfix_single_false {c : Char} {t : List Char} (h : c ∉ t) :
    hasInfix [c] t = false := by
  rw [Bool.eq_false_iff]
  intro hcon
  exact h (hasInfix_single.mp hcon)

theorem matchHex32End_hexsuffix (name : List Char) {hex : List Char} (hlen : hex.length = 32)
    (hhex : hex.all isHexDigit = true) : matchHex32End (name ++ hex) = some hex := by
  have hne : hex ≠ [] := by
    intro hxe; rw [hxe] at hlen; simp at hlen
  have hnl : ¬ ((name ++ hex).getLast? = some '\n') := by
    rw [List.getLast?_append_of_ne_nil _ hne]
    intro hcon
    have hmem : '\n' ∈ hex := List.mem_of_mem_getLast? (by rw [hcon]; rfl)
    have := List.all_eq_true.mp hhex _ hmem
    simp [isHexDigit] at this
  have hdrop : (name ++ hex).length - 32 = name.length := by
    simp [List.length_append, hlen]
  simp only [matchHex32End, if_neg hnl]
  rw [if_pos]
  · rw [hdrop, List.drop_left]
  · constructor
    · simp [List.length_append, hlen]
    · rw [hdrop, List.drop_left]; exact hhex

theorem matchHex32End_uuidsuffix (name : List Char) {a b c d e : List Char}
    (h : uuidSections a b c d e) :
    matchHex32End (name ++ mkUuid a b c d e) = none := by
  have hlen := mkUuid_length h
  have hne : mkUuid a b c d e ≠ [] := by
    intro hxe; rw [hxe] at hlen; simp at hlen
  have hnl : ¬ ((name ++ mkUuid a b c d e).getLast? = some '\n') := by
    rw [List.getLast?_append_of_ne_nil _ hne]
    intro hcon
    have hmem : '\n' ∈ mkUuid a b c d e :=
      List.mem_of_mem_getLast? (by rw [hcon]; rfl)
    rcases mkUuid_mem h hmem with hh | hh
    · simp [isHexDigit] at hh
    · cases hh
  have hdrop : (name ++ mkUuid a b c d e).length - 32 = name.length + 4 := by
    simp [List.length_append, hlen]
  have hmemdash : '-' ∈ (name ++ mkUuid a b c d e).drop (name.length + 4) := by
    rw [List.drop_append_eq_append_drop]
    have h1 : name.drop (name.length + 4) = [] :=
      List.drop_eq_nil_of_le (by omega)
    rw [h1, List.nil_append]
    have h2 : name.length + 4 - name.length = 4 := by omega
    rw [h2]
    rw [show mkUuid a b c d e =
      a ++ '-' :: (b ++ '-' :: (c ++ '-' :: (d ++ '-' :: e))) by
        simp [mkUuid, List.append_assoc]]
    rw [List.drop_append_eq_append_drop]
    refine List.mem_append_right _ ?_
    have h3 : 4 - a.length = 0 := by
      have := h.1; omega
    rw [h3, List.drop]
    exact List.mem_cons_self _ _
  simp only [matchHex32End, if_neg hnl]
  rw [if_neg]
  intro hcon
  obtain ⟨-, hall⟩ := hcon
  rw [hdrop] at hall
  have := List.all_eq_true.mp hall _ hmemdash
  simp [isHexDigit] at this

theorem all_hex_no_hyphen {t : List Char} (h : t.all isHexDigit = true) : '-' ∉ t := by
  intro hm
  have := List.all_eq_true.mp h _ hm
  simp [isHexDigit] at this

theorem all_hex_no_slash {t : List Char} (h : t.all isHexDigit = true) : '/' ∉ t := by
  intro hm
  have := List.all_eq_true.mp h _ hm
  simp [isHexDigit] at this

theorem all_hex_no_qmark {t : List Char} (h : t.all isHexDigit = true) : '?' ∉ t := by
  intro hm
  have := List.all_eq_true.mp h _ hm
  simp [isHexDigit] at this

theorem mkUuid_no_slash {a b c d e : List Char} (h : uuidSections a b c d e) :
    '/' ∉ mkUuid a b c d e := by
  intro hm
  rcases mkUuid_mem h hm with hh | hh
  · simp [isHexDigit] at hh
  · cases hh

theorem mkUuid_no_qmark {a b c d e : List Char} (h : uuidSections a b c d e) :
    '?' ∉ mkUuid a b c d e := by
  intro hm
  rcases mkUuid_mem h hm with hh | hh
  · simp [isHexDigit] at hh
  · cases hh

theorem searchHex32_mkUuid {a b c d e : List Char} (h : uuidSections a b c d e) :
    searchHex32 (mkUuid a b c d e) = none := by
  rw [show mkUuid a b c d e =
    a ++ '-' :: (b ++ '-' :: (c ++ '-' :: (d ++ '-' :: e))) by
      simp [mkUuid, List.append_assoc]]
  obtain ⟨la, lb, lc, ld, le, -⟩ := h
  apply searchHex32_hyphen_blocked
  · omega
  · simp only [List.length_append, List.length_cons]
    omega

/-- Behavior of `_normalize_id` on an input that is exactly a bare 32-hex
identifier. -/
theorem normalizeId_rawhex {t : List Char} (hlen : t.length = 32)
    (hhex : t.all isHexDigit = true) :
    normalizeId t = hyphenate (lowerStr t) := by
  have hslash := all_hex_no_slash hhex
  have hq := all_hex_no_qmark hhex
  have h1 : hasInfix ("/".toList) t = false := hasInfix_single_false hslash
  have h2 : hasInfix ("?".toList) t = false := hasInfix_single_false hq
  have hend : matchHex32End t = some t := by
    have := matchHex32End_hexsuffix [] hlen hhex
    rwa [List.nil_append] at this
  simp only [normalizeId, urlStripped, h1, Bool.false_eq_true, if_false, h2, hend]

/-- Behavior of `_normalize_page_id` on an input that is exactly a bare
32-hex identifier. -/
theorem normalizePageId_rawhex (fetch : Option (List Char)) {t : List Char}
    (hlen : t.length = 32) (hhex : t.all isHexDigit = true) :
    normalizePageId fetch t = .ok (hyphenate (lowerStr t)) := by
  have hm := searchHex32_exact hlen hhex
  have hmu := searchUuid_no_hyphen (all_hex_no_hyphen hhex)
  simp [normalizePageId, hm, hmu, finishNormalize]

/-- Behavior of `_normalize_id` on an input that is exactly a hyphenated
UUID. -/
theorem normalizeId_uuid {a b c d e : List Char} (h : uuidSections a b c d e) :
    normalizeId (mkUuid a b c d e) = lowerStr (mkUuid a b c d e) := by
  have h1 : hasInfix ("/".toList) (mkUuid a b c d e) = false :=
    hasInfix_single_false (mkUuid_no_slash h)
  have h2 : hasInfix ("?".toList) (mkUuid a b c d e) = false :=
    hasInfix_single_false (mkUuid_no_qmark h)
  have hend : matchHex32End (mkUuid a b c d e) = none := by
    have := matchHex32End_uuidsuffix [] h
    rwa [List.nil_append] at this
  simp only [normalizeId, urlStripped, h1, Bool.false_eq_true, if_false, h2,
    hend, searchUuid_mk h]

/-- Behavior of `_normalize_page_id` on an input that is exactly a
hyphenated UUID. -/
theorem normalizePageId_uuid (fetch : Option (List Char)) {a b c d e : List Char}
    (h : uuidSections a b c d e) :
    normalizePageId fetch (mkUuid a b c d e) = .ok (lowerStr (mkUuid a b c d e)) := by
  simp [normalizePageId, searchHex32_mkUuid h, searchUuid_mk h, finishNormalize]

/-- Behavior of `_normalize_id` on a URL whose last path segment is
`name ++ idpart ++ q` with `q` an optional query suffix. -/
theorem normalizeId_url (pre : List Char) {name idpart q : List Char}
    (hn1 : '/' ∉ name) (hn2 : '?' ∉ name) (hi1 : '/' ∉ idpart) (hi2 : '?' ∉ idpart)
    (hq1 : '/' ∉ q) (hq : q = [] ∨ ∃ qs, q = '?' :: qs) :
    urlStripped (urlOf pre name idpart q) = name ++ idpart := by
  have hseg : '/' ∉ name ++ idpart ++ q := by
    intro hm
    rcases List.mem_append.mp hm with hm | hm
    · rcases List.mem_append.mp hm with hm | hm
      · exact hn1 hm
      · exact hi1 hm
    · exact hq1 hm
  have hmemslash : '/' ∈ urlOf pre name idpart q :=
    List.mem_append_right _ (List.mem_cons_self _ _)
  have hlast : lastSlashSeg (urlOf pre name idpart q) = name ++ idpart ++ q :=
    lastSlashSeg_append hseg
  have hnoq : '?' ∉ name ++ idpart := by
    intro hm
    rcases List.mem_append.mp hm with hm | hm
    · exact hn2 hm
    · exact hi2 hm
  rcases hq with hq | ⟨qs, hq⟩
  · subst hq
    simp [urlStripped, hasInfix_single.mpr hmemslash, hlast,
      hasInfix_single_false hnoq]
  · subst hq
    have hmemq : '?' ∈ name ++ idpart ++ '?' :: qs :=
      List.mem_append_right _ (List.mem_cons_self _ _)
    simp [urlStripped, hasInfix_single.mpr hmemslash, hlast]
    rw [← List.append_assoc, hasInfix_single.mpr hmemq, if_pos rfl,
      stripQuery_append hnoq]

/-- C3 (amended).  The two normalization operations agree — both returning
the lowercase 8-4-4-4-12 hyphenated form — on: a bare 32-hex identifier; a
bare hyphenated UUID; a URL whose last path segment ends with the 32-hex
identifier before an optional query suffix (with the identifier being the
leftmost 32-hex run of the URL and no hyphenated UUID present); and a URL
whose last path segment ends with a hyphenated UUID before an optional query
suffix (with no 32-hex run present and that UUID being the leftmost UUID of
the URL and of the stripped segment).  Moreover two bare 32-hex spellings
that lowercase equal normalize equal under both operations.  The claim as
frozen (agreement for arbitrary URLs embedding an identifier) is refuted by
`c3_counterexample`. -/
theorem c3_normalization_agreement :
    (∀ (fetch : Option (List Char)) (t : List Char),
        t.length = 32 → t.all isHexDigit = true →
        normalizePageId fetch t = .ok (hyphenate (lowerStr t)) ∧
        normalizeId t = hyphenate (lowerStr t)) ∧
    (∀ (fetch : Option (List Char)) (a b c d e : List Char),
        uuidSections a b c d e →
        normalizePageId fetch (mkUuid a b c d e) = .ok (lowerStr (mkUuid a b c d e)) ∧
        normalizeId (mkUuid a b c d e) = lowerStr (mkUuid a b c d e)) ∧
    (∀ (fetch : Option (List Char)) (pre name hex q : List Char),
        hex.length = 32 → hex.all isHexDigit = true →
        '/' ∉ name → '?' ∉ name → '/' ∉ q → (q = [] ∨ ∃ qs, q = '?' :: qs) →
        searchHex32 (urlOf pre name hex q) = some hex →
        searchUuid (urlOf pre name hex q) = none →
        normalizePageId fetch (urlOf pre name hex q) = .ok (hyphenate (lowerStr hex)) ∧
        normalizeId (urlOf pre name hex q) = hyphenate (lowerStr hex)) ∧
    (∀ (fetch : Option (List Char)) (pre name a b c d e q : List Char),
        uuidSections a b c d e →
        '/' ∉ name → '?' ∉ name → '/' ∉ q → (q = [] ∨ ∃ qs, q = '?' :: qs) →
        searchHex32 (urlOf pre name (mkUuid a b c d e) q) = none →
        searchUuid (urlOf pre name (mkUuid a b c d e) q) = some (mkUuid a b c d e) →
        searchUuid (name ++ mkUuid a b c d e) = some (mkUuid a b c d e) →
        normalizePageId fetch (urlOf pre name (mkUuid a b c d e) q) =
          .ok (lowerStr (mkUuid a b c d e)) ∧
        normalizeId (urlOf pre name (mkUuid a b c d e) q) =
          lowerStr (mkUuid a b c d e)) ∧
    (∀ (fetch : Option (List Char)) (s1 s2 : List Char),
        s1.length = 32 → s1.all isHexDigit = true →
        s2.length = 32 → s2.all isHexDigit = true →
        lowerStr s1 = lowerStr s2 →
        normalizePageId fetch s1 = normalizePageId fetch s2 ∧
        normalizeId s1 = normalizeId s2) := by
  refine ⟨?_, ?_, ?_, ?_, ?_⟩
  · intro fetch t hlen hhex
    exact ⟨normalizePageId_rawhex fetch hlen hhex, normalizeId_rawhex hlen hhex⟩
  · intro fetch a b c d e h
    exact ⟨normalizePageId_uuid fetch h, normalizeId_uuid h⟩
  · intro fetch pre name hex q hlen hhex hn1 hn2 hq1 hq hs hu
    constructor
    · simp [normalizePageId, hs, hu, finishNormalize]
    · have hstr := normalizeId_url pre hn1 hn2
        (all_hex_no_slash hhex) (all_hex_no_qmark hhex) hq1 hq
      simp only [normalizeId, hstr, matchHex32End_hexsuffix name hlen hhex]
  · intro fetch pre name a b c d e q h hn1 hn2 hq1 hq hm hu hseg
    constructor
    · simp [normalizePageId, hm, hu, finishNormalize]
    · have hstr := normalizeId_url pre hn1 hn2
        (mkUuid_no_slash h) (mkUuid_no_qmark h) hq1 hq
      simp only [normalizeId, hstr, matchHex32End_uuidsuffix name h, hseg]
  · intro fetch s1 s2 h1 h2 h3 h4 hlow
    constructor
    · rw [normalizePageId_rawhex fetch h1 h2, normalizePageId_rawhex fetch h3 h4, hlow]
    · rw [normalizeId_rawhex h1 h2, normalizeId_rawhex h3 h4, hlow]

/-- C3 witness: the spec's own example identifier, normalized identically by
both operations. -/
theorem c3_roundtrip_witness :
    ("1A2b3c4d5e6f78901a2b3c4d5e6f7890".toList).length = 32 ∧
    (normalizePageId none ("1A2b3c4d5e6f78901a2b3c4d5e6f7890".toList) =
      .ok (hyphenate (lowerStr ("1A2b3c4d5e6f78901a2b3c4d5e6f7890".toList))) ∧
     normalizeId ("1A2b3c4d5e6f78901a2b3c4d5e6f7890".toList) =
      hyphenate (lowerStr ("1A2b3c4d5e6f78901a2b3c4d5e6f7890".toList))) :=
  ⟨by decide,
   c3_normalization_agreement.1 none ("1A2b3c4d5e6f78901a2b3c4d5e6f7890".toList)
     (by decide) (by decide)⟩

/-- C3 counterexample: a URL embedding a 32-hex identifier followed by a
further path segment.  The exporter extracts and hyphenates the identifier
while the importer returns the trailing segment `view`, so the two
normalizations disagree, refuting the claim for arbitrary embedding URLs. -/
theorem c3_counterexample :
    normalizePageId none ("https://x.io/1a2b3c4d5e6f78901a2b3c4d5e6f7890/view".toList) =
      .ok ("1a2b3c4d-5e6f-7890-1a2b-3c4d5e6f7890".toList) ∧
    normalizeId ("https://x.io/1a2b3c4d5e6f78901a2b3c4d5e6f7890/view".toList) =
      "view".toList ∧
    ("view".toList : List Char) ≠ "1a2b3c4d-5e6f-7890-1a2b-3c4d5e6f7890".toList := by
  refine ⟨by rfl, by decide, by decide⟩

/-- C10 (amended).  When no identifier can be recovered, the exporter's
`_normalize_page_id` raises `ValueError` to its caller (in each of its three
failure modes: non-URL input, URL whose fetch fails, URL whose fetched HTML
contains no identifier), but the importer's `_normalize_id` does not raise:
it returns its URL-stripped input unchanged.  The claim as frozen (both
operations raise) is refuted by `c10_counterexample`. -/
theorem c10_error_behavior :
    (∀ (fetch : Option (List Char)) (input : List Char),
        searchHex32 input = none → searchUuid input = none →
        startsHttpUrl input = false →
        normalizePageId fetch input =
          .error ("Could not find 32-character page id".toList)) ∧
    (∀ (input : List Char),
        searchHex32 input = none → searchUuid input = none →
        startsHttpUrl input = true →
        normalizePageId none input =
          .error ("Could not resolve page id from URL (HTTP error)".toList)) ∧
    (∀ (html input : List Char),
        searchHex32 input = none → searchUuid input = none →
        startsHttpUrl input = true →
        searchPageIdJson html = none → searchUuid html = none →
        searchHex32 html = none →
        normalizePageId (some html) input =
          .error ("Could not find 32-character page id".toList)) ∧
    (∀ (input : List Char),
        matchHex32End (urlStripped input) = none →
        searchUuid (urlStripped input) = none →
        normalizeId input = urlStripped input) := by
  refine ⟨?_, ?_, ?_, ?_⟩
  · intro fetch input hm hu hs
    simp [normalizePageId, hm, hu, hs, finishNormalize]
  · intro input hm hu hs
    simp [normalizePageId, hm, hu, hs]
  · intro html input hm hu hs hj hhu hhm
    simp [normalizePageId, hm, hu, hs, hj, hhu, hhm, finishNormalize]
  · intro input h1 h2
    simp only [normalizeId, h1, h2]

/-- C10 witness: a non-identifier input; the exporter raises, the importer
returns the input unchanged. -/
theorem c10_error_witness :
    searchHex32 ("zzz".toList) = none ∧
    normalizePageId none ("zzz".toList) =
      .error ("Could not find 32-character page id".toList) ∧
    normalizeId ("zzz".toList) = urlStripped ("zzz".toList) :=
  ⟨by decide,
   (c10_error_behavior.1 none ("zzz".toList) (by decide) (by decide) (by decide)),
   (c10_error_behavior.2.2.2 ("zzz".toList) (by decide) (by decide))⟩

/-- C10 counterexample: on the unnormalizable input `zzz` the importer's
`_normalize_id` returns the value `zzz` unchanged instead of raising, even
though the input contains no 32-hex run and no hyphenated UUID. -/
theorem c10_counterexample :
    normalizeId ("zzz".toList) = "zzz".toList ∧
    searchHex32 ("zzz".toList) = none ∧
    searchUuid ("zzz".toList) = none := by
  refine ⟨by decide, by decide, by decide⟩

/-- C9: for every block list passed to `create_page`, the initial create
call carries exactly the first `min n 100` blocks, every append call
carries at most 100 blocks, and the initial blocks followed by the appended
chunks in call order reconstitute the original list. -/
theorem c9_create_page_chunking {α : Type} (content_blocks : List α) :
    (createPageCalls content_blocks).1.length = min content_blocks.length 100 ∧
    (∀ c ∈ (createPageCalls content_blocks).2, c.length ≤ 100) ∧
    (createPageCalls content_blocks).1 ++ (createPageCalls content_blocks).2.flatten =
      content_blocks := by
  refine ⟨?_, ?_, ?_⟩
  · simp [createPageCalls, List.length_take, Nat.min_comm]
  · exact appendChunks_length_le _
  · simp [createPageCalls, appendChunks_flatten]

/-- C2 (amended): the paginated record-map assembly merges chunks with
Python `dict.update` semantics, so the final mapping is the right-biased
union of the consumed chunk mappings — at every block identifier the value
of the latest consumed chunk containing that identifier wins.  The claim as
frozen (an identifier already present is never overwritten) is refuted by
`c2_counterexample`. -/
theorem c2_fetch_merge_union {κ V : Type} [DecidableEq κ]
    (resps : List (ChunkResp κ V)) (k : κ) :
    alookup k (fetchRecordMap resps) = lastWins k (consumedChunks resps ⟨[]⟩) := by
  rw [fetchRecordMap, fetchLoop_lastWins]
  cases lastWins k (consumedChunks resps ⟨[]⟩) <;> simp [alookup]

/-- C2 counterexample: two consumed chunks bind the same block identifier;
the final mapping holds the second chunk's value, overwriting the first. -/
theorem c2_counterexample :
    alookup "a" (fetchRecordMap
      [⟨[("a", 1)], some ⟨[1]⟩⟩, ⟨[("a", 2)], some ⟨[1]⟩⟩]) = some 2 ∧
    alookup "a" ([("a", 1)] : List (String × Nat)) = some 1 ∧ (2 : Nat) ≠ 1 := by
  refine ⟨by decide, by decide, by decide⟩

theorem stripPrefix?_split {p t r : List Char} (h : stripPrefix? p t = some r) :
    t = p ++ r := by
  unfold stripPrefix? at h
  by_cases hb : p.isPrefixOf t
  · rw [if_pos hb] at h
    injection h with hr
    obtain ⟨s, hs⟩ := List.isPrefixOf_iff_prefix.mp hb
    rw [← hs, List.drop_left] at hr
    rw [← hs, hr]
  · rw [if_neg hb] at h
    cases h

theorem expectChar_split {c : Char} {t r : List Char} (h : expectChar c t = some r) :
    t = c :: r := by
  cases t with
  | nil => cases h
  | cons x rest =>
    rw [expectChar] at h
    by_cases hx : x = c
    · rw [if_pos hx] at h
      injection h with hr
      rw [hx, hr]
    · rw [if_neg hx] at h
      cases h

theorem findClose_split {close t a b : List Char} (hcl : close ≠ [])
    (h : findClose close t = some (a, b)) : t = a ++ close ++ b := by
  induction t generalizing a b with
  | nil =>
    cases close with
    | nil => exact absurd rfl hcl
    | cons ch crest => simp [findClose, List.isPrefixOf] at h
  | cons c rest ih =>
    rw [findClose] at h
    by_cases hp : close.isPrefixOf (c :: rest)
    · rw [if_pos hp] at h
      obtain ⟨s, hs⟩ := List.isPrefixOf_iff_prefix.mp hp
      have hd : (c :: rest).drop close.length = s := by
        rw [← hs, List.drop_left]
      rw [hd] at h
      injection h with h'
      obtain ⟨ha, hb⟩ := Prod.mk.injEq .. ▸ h'
      rw [← ha, ← hb, ← hs]
      simp
    · rw [if_neg hp] at h
      cases hrec : findClose close rest with
      | none => rw [hrec] at h; cases h
      | some pr =>
        obtain ⟨a', b'⟩ := pr
        rw [hrec] at h
        simp only [Option.map_some', Option.some.injEq, Prod.mk.injEq] at h
        obtain ⟨ha, hb⟩ := h
        subst ha; subst hb
        have hr := ih hrec
        rw [hr]
        exact (List.cons_append _ _ _).symm

theorem findClosePos_split {close t a b : List Char} (hcl : close ≠ [])
    (h : findClosePos close t = some (a, b)) : t = a ++ close ++ b ∧ a ≠ [] := by
  cases t with
  | nil => cases h
  | cons c rest =>
    rw [findClosePos] at h
    cases hrec : findClose close rest with
    | none => rw [hrec] at h; cases h
    | some pr =>
      obtain ⟨a', b'⟩ := pr
      rw [hrec] at h
      simp only [Option.map_some', Option.some.injEq, Prod.mk.injEq] at h
      obtain ⟨ha, hb⟩ := h
      subst ha; subst hb
      refine ⟨?_, by simp⟩
      rw [List.cons_append, findClose_split hcl hrec]
      simp

theorem matchColorSpan_sizes {t css inner rem : List Char}
    (h : matchColorSpan t = some (css, inner, rem)) :
    inner.length < t.length ∧ rem.length < t.length := by
  unfold matchColorSpan at h
  cases h1 : stripPrefix? spanColorPre t with
  | none => rw [h1] at h; cases h
  | some r =>
    rw [h1, Option.some_bind] at h
    cases h2 : findClose ['"'] r with
    | none => rw [h2] at h; cases h
    | some rq =>
      obtain ⟨region, afterQ⟩ := rq
      rw [h2, Option.some_bind] at h
      by_cases hreg : region = []
      · rw [if_pos hreg] at h; cases h
      · rw [if_neg hreg] at h
        cases h3 : expectChar '>' afterQ with
        | none => rw [h3] at h; cases h
        | some r2 =>
          rw [h3, Option.some_bind] at h
          cases h4 : findClose spanClose r2 with
          | none => rw [h4] at h; cases h
          | some pr =>
            obtain ⟨inner', rem'⟩ := pr
            rw [h4] at h
            simp only [Option.map_some', Option.some.injEq, Prod.mk.injEq] at h
            obtain ⟨-, hi, hr⟩ := h
            subst hi; subst hr
            have e1 := stripPrefix?_split h1
            have e2 := findClose_split (by decide) h2
            have e3 := expectChar_split h3
            have e4 := findClose_split (by decide) h4
            rw [e1, e2, e3, e4]
            simp only [List.length_append, List.length_cons]
            omega

theorem matchBgSpan_sizes {t css inner rem : List Char}
    (h : matchBgSpan t = some (css, inner, rem)) :
    inner.length < t.length ∧ rem.length < t.length := by
  unfold matchBgSpan at h
  cases h1 : stripPrefix? spanBgPre t with
  | none => rw [h1] at h; cases h
  | some r =>
    rw [h1, Option.some_bind] at h
    cases h2 : findClose ['"'] r with
    | none => rw [h2] at h; cases h
    | some rq =>
      obtain ⟨region, afterQ⟩ := rq
      rw [h2, Option.some_bind] at h
      by_cases hreg : region = []
      · rw [if_pos hreg] at h; cases h
      · rw [if_neg hreg] at h
        cases h3 : expectChar '>' afterQ with
        | none => rw [h3] at h; cases h
        | some r2 =>
          rw [h3, Option.some_bind] at h
          cases h4 : findClose spanClose r2 with
          | none => rw [h4] at h; cases h
          | some pr =>
            obtain ⟨inner', rem'⟩ := pr
            rw [h4] at h
            simp only [Option.map_some', Option.some.injEq, Prod.mk.injEq] at h
            obtain ⟨-, hi, hr⟩ := h
            subst hi; subst hr
            have e1 := stripPrefix?_split h1
            have e2 := findClose_split (by decide) h2
            have e3 := expectChar_split h3
            have e4 := findClose_split (by decide) h4
            rw [e1, e2, e3, e4]
            simp only [List.length_append, List.length_cons]
            omega

theorem matchUnderline_sizes {t inner rem : List Char}
    (h : matchUnderline t = some (inner, rem)) :
    inner.length < t.length ∧ rem.length < t.length := by
  unfold matchUnderline at h
  cases h1 : stripPrefix? uOpen t with
  | none => rw [h1] at h; cases h
  | some r =>
    rw [h1, Option.some_bind] at h
    have e1 := stripPrefix?_split h1
    have e2 := findClose_split (by decide) h
    have l1 : uOpen.length = 3 := by decide
    have l2 : uClose.length = 4 := by decide
    rw [e1, e2]
    simp only [List.length_append, List.length_cons, l1, l2]
    omega

theorem matchWrapPos_sizes {marker t inner rem : List Char} (hm : marker ≠ [])
    (h : matchWrapPos marker t = some (inner, rem)) :
    inner.length < t.length ∧ rem.length < t.length := by
  unfold matchWrapPos at h
  cases h1 : stripPrefix? marker t with
  | none => rw [h1] at h; cases h
  | some r =>
    rw [h1, Option.some_bind] at h
    have e1 := stripPrefix?_split h1
    have e2 := (findClosePos_split hm h).1
    have hlen : 1 ≤ marker.length := by
      cases marker with
      | nil => exact absurd rfl hm
      | cons _ _ => simp
    rw [e1, e2]
    simp only [List.length_append]
    omega

theorem matchCode_sizes {t inner rem : List Char}
    (h : matchCode t = some (inner, rem)) :
    inner.length < t.length ∧ rem.length < t.length := by
  unfold matchCode at h
  cases h1 : expectChar backtick t with
  | none => rw [h1] at h; cases h
  | some r =>
    rw [h1, Option.some_bind] at h
    cases h2 : findClose [backtick] r with
    | none => rw [h2] at h; cases h
    | some pr =>
      obtain ⟨inner', rem'⟩ := pr
      rw [h2, Option.some_bind] at h
      by_cases hi : inner' = []
      · rw [if_pos hi] at h; cases h
      · rw [if_neg hi] at h
        injection h with h'
        obtain ⟨ha, hb⟩ := Prod.mk.injEq .. ▸ h'
        subst ha; subst hb
        have e1 := expectChar_split h1
        have e2 := findClose_split (by decide) h2
        rw [e1, e2]
        simp only [List.length_append, List.length_cons]
        omega

theorem matchLink_sizes {t txt url rem : List Char}
    (h : matchLink t = some (txt, url, rem)) :
    txt.length < t.length ∧ rem.length < t.length := by
  unfold matchLink at h
  cases h1 : expectChar '[' t with
  | none => rw [h1] at h; cases h
  | some r =>
    rw [h1, Option.some_bind] at h
    cases h2 : findClose [']'] r with
    | none => rw [h2] at h; cases h
    | some pt =>
      obtain ⟨txt', afterBr⟩ := pt
      rw [h2, Option.some_bind] at h
      by_cases ht : txt' = []
      · rw [if_pos ht] at h; cases h
      · rw [if_neg ht] at h
        cases h3 : expectChar '(' afterBr with
        | none => rw [h3] at h; cases h
        | some r2 =>
          rw [h3, Option.some_bind] at h
          cases h4 : findClose [')'] r2 with
          | none => rw [h4] at h; cases h
          | some pu =>
            obtain ⟨url', rem'⟩ := pu
            rw [h4, Option.some_bind] at h
            by_cases hu : url' = []
            · rw [if_pos hu] at h; cases h
            · rw [if_neg hu] at h
              injection h with h'
              obtain ⟨ha, hrest⟩ := Prod.mk.injEq .. ▸ h'
              obtain ⟨hb, hc⟩ := Prod.mk.injEq .. ▸ hrest
              subst ha; subst hb; subst hc
              have e1 := expectChar_split h1
              have e2 := findClose_split (by decide) h2
              have e3 := expectChar_split h3
              have e4 := findClose_split (by decide) h4
              rw [e1, e2, e3, e4]
              simp only [List.length_append, List.length_cons]
              omega

theorem parseRichStep_congr {rec1 rec2 : List Char → Ann → List Seg} {t : List Char}
    (h : ∀ u a, u.length < t.length → rec1 u a = rec2 u a) (ann : Ann) :
    parseRichStep rec1 t ann = parseRichStep rec2 t ann := by
  cases t with
  | nil => rfl
  | cons c rest =>
    unfold parseRichStep
    dsimp only
    cases hm1 : matchColorSpan (c :: rest) with
    | some p =>
      obtain ⟨css, inner, rem⟩ := p
      have hs := matchColorSpan_sizes hm1
      dsimp only
      rw [h inner _ hs.1, h rem ann hs.2]
    | none =>
    cases hm2 : matchBgSpan (c :: rest) with
    | some p =>
      obtain ⟨css, inner, rem⟩ := p
      have hs := matchBgSpan_sizes hm2
      dsimp only
      rw [h inner _ hs.1, h rem ann hs.2]
    | none =>
    cases hm3 : matchUnderline (c :: rest) with
    | some p =>
      obtain ⟨inner, rem⟩ := p
      have hs := matchUnderline_sizes hm3
      dsimp only
      rw [h inner _ hs.1, h rem ann hs.2]
    | none =>
    cases hm4 : matchWrapPos ("***".toList) (c :: rest) with
    | some p =>
      obtain ⟨inner, rem⟩ := p
      have hs := matchWrapPos_sizes (by decide) hm4
      dsimp only
      rw [h inner _ hs.1, h rem ann hs.2]
    | none =>
    cases hm5 : matchWrapPos ("**".toList) (c :: rest) with
    | some p =>
      obtain ⟨inner, rem⟩ := p
      have hs := matchWrapPos_sizes (by decide) hm5
      dsimp only
      rw [h inner _ hs.1, h rem ann hs.2]
    | none =>
    cases hm6 : matchWrapPos ("*".toList) (c :: rest) with
    | some p =>
      obtain ⟨inner, rem⟩ := p
      have hs := matchWrapPos_sizes (by decide) hm6
      dsimp only
      rw [h inner _ hs.1, h rem ann hs.2]
    | none =>
    cases hm7 : matchWrapPos ("~~".toList) (c :: rest) with
    | some p =>
      obtain ⟨inner, rem⟩ := p
      have hs := matchWrapPos_sizes (by decide) hm7
      dsimp only
      rw [h inner _ hs.1, h rem ann hs.2]
    | none =>
    cases hm8 : matchCode (c :: rest) with
    | some p =>
      obtain ⟨inner, rem⟩ := p
      have hs := matchCode_sizes hm8
      dsimp only
      rw [h inner _ hs.1, h rem ann hs.2]
    | none =>
    cases hm9 : matchLink (c :: rest) with
    | some p =>
      obtain ⟨txt, url, rem⟩ := p
      have hs := matchLink_sizes hm9
      dsimp only
      rw [h txt ann hs.1, h rem ann hs.2]
    | none =>
      dsimp only
      by_cases hp0 : ((c :: rest).takeWhile (fun ch => !(isSpecial ch))).length = 0
      · rw [if_pos hp0, if_pos hp0, h ((c :: rest).drop 1) ann (by simp)]
      · rw [if_neg hp0, if_neg hp0]
        by_cases hpall : ((c :: rest).takeWhile (fun ch => !(isSpecial ch))).length =
            (c :: rest).length
        · rw [if_pos hpall, if_pos hpall]
        · rw [if_neg hpall, if_neg hpall]
          have hlt : ((c :: rest).drop
              ((c :: rest).takeWhile (fun ch => !(isSpecial ch))).length).length <
              (c :: rest).length := by
            simp only [List.length_drop, List.length_cons]
            omega
          rw [h _ ann hlt]

theorem parseRichF_fuel {fuel : Nat} {t : List Char} (ann : Ann)
    (h : t.length < fuel) : parseRichF fuel t ann = parseRich t ann := by
  induction fuel using Nat.strong_induction_on generalizing t ann with
  | _ fuel ih =>
    cases fuel with
    | zero => omega
    | succ n =>
      show parseRichStep (parseRichF n) t ann = parseRich t ann
      rw [parseRich, show parseRichF (t.length + 1) t ann =
        parseRichStep (parseRichF t.length) t ann from rfl]
      apply parseRichStep_congr
      intro u a hu
      by_cases hn : n = 0
      · omega
      · rw [ih n (by omega) a (by omega), ih t.length (by omega) a hu]

theorem parseRich_unfold (t : List Char) (ann : Ann) :
    parseRich t ann = parseRichStep parseRich t ann := by
  rw [parseRich, show parseRichF (t.length + 1) t ann =
    parseRichStep (parseRichF t.length) t ann from rfl]
  apply parseRichStep_congr
  intro u a hu
  exact parseRichF_fuel a hu

theorem stripPrefix?_none {p t : List Char} (h : ¬ (p.isPrefixOf t = true)) :
    stripPrefix? p t = none := by
  unfold stripPrefix?
  rw [if_neg h]

theorem stripPrefix?_append (p r : List Char) : stripPrefix? p (p ++ r) = some r := by
  unfold stripPrefix?
  rw [if_pos (List.isPrefixOf_iff_prefix.mpr (List.prefix_append p r)), List.drop_left]

theorem isPrefixOf_cons_ne {ph th : Char} (pt tt : List Char) (h : ph ≠ th) :
    ((ph :: pt).isPrefixOf (th :: tt)) = false := by
  simp [List.isPrefixOf, h]

theorem isPrefixOf_append_left_eq {p a : List Char} (b : List Char)
    (h : p.length ≤ a.length) : (p.isPrefixOf (a ++ b)) = p.isPrefixOf a := by
  induction p generalizing a with
  | nil => simp [List.isPrefixOf]
  | cons x xs ih =>
    cases a with
    | nil => simp at h
    | cons y ys =>
      simp only [List.cons_append, List.isPrefixOf]
      rw [show ys.append b = ys ++ b from rfl, ih (a := ys) (by simpa using h)]

theorem expectChar_self (c : Char) (r : List Char) : expectChar c (c :: r) = some r := by
  rw [expectChar, if_pos rfl]

theorem expectChar_ne {c x : Char} (r : List Char) (h : x ≠ c) :
    expectChar c (x :: r) = none := by
  rw [expectChar, if_neg h]

theorem findClose_append {ch : Char} {crest a b : List Char} (h : ch ∉ a) :
    findClose (ch :: crest) (a ++ (ch :: crest) ++ b) = some (a, b) := by
  induction a with
  | nil =>
    simp only [List.nil_append, List.cons_append]
    rw [findClose]
    rw [if_pos (List.isPrefixOf_iff_prefix.mpr ⟨b, by simp⟩)]
    have hdrop : (ch :: (crest ++ b)).drop (ch :: crest).length = b := by
      rw [← List.cons_append, List.drop_left]
    rw [hdrop]
  | cons x a' ih =>
    have hx : ch ≠ x := fun heq => h (heq ▸ List.mem_cons_self _ _)
    have hmem : ch ∉ a' := fun hm => h (List.mem_cons_of_mem _ hm)
    simp only [List.cons_append]
    rw [findClose]
    rw [if_neg (by rw [isPrefixOf_cons_ne _ _ hx]; simp)]
    rw [show a' ++ List.cons ch crest ++ b = a' ++ (ch :: crest) ++ b from rfl] at *
    rw [ih hmem]
    rfl

theorem findClosePos_append {ch : Char} {crest b : List Char} (a0 : Char)
    (a' : List Char) (h : ch ∉ a0 :: a') :
    findClosePos (ch :: crest) ((a0 :: a') ++ (ch :: crest) ++ b) = some (a0 :: a', b) := by
  have hmem : ch ∉ a' := fun hm => h (List.mem_cons_of_mem _ hm)
  simp only [List.cons_append]
  rw [findClosePos]
  rw [show a' ++ List.cons ch crest ++ b = a' ++ (ch :: crest) ++ b from rfl]
  rw [findClose_append hmem]
  rfl

theorem matchColorSpan_nil : matchColorSpan [] = none := by decide

theorem matchColorSpan_head {c : Char} {r : List Char} (h : c ≠ '<') :
    matchColorSpan (c :: r) = none := by
  unfold matchColorSpan
  have hp : ¬ ((spanColorPre.isPrefixOf (c :: r)) = true) := by
    rw [show spanColorPre = '<' :: ("span style=\"color:".toList) from rfl]
    rw [isPrefixOf_cons_ne _ _ (Ne.symm h)]
    simp
  rw [stripPrefix?_none hp]
  rfl

theorem matchBgSpan_nil : matchBgSpan [] = none := by decide

theorem matchBgSpan_head {c : Char} {r : List Char} (h : c ≠ '<') :
    matchBgSpan (c :: r) = none := by
  unfold matchBgSpan
  have hp : ¬ ((spanBgPre.isPrefixOf (c :: r)) = true) := by
    rw [show spanBgPre = '<' :: ("span style=\"background-color:".toList) from rfl]
    rw [isPrefixOf_cons_ne _ _ (Ne.symm h)]
    simp
  rw [stripPrefix?_none hp]
  rfl

theorem matchUnderline_head {c : Char} {r : List Char} (h : c ≠ '<') :
    matchUnderline (c :: r) = none := by
  unfold matchUnderline
  have hp : ¬ ((uOpen.isPrefixOf (c :: r)) = true) := by
    rw [show uOpen = '<' :: ("u>".toList) from rfl]
    rw [isPrefixOf_cons_ne _ _ (Ne.symm h)]
    simp
  rw [stripPrefix?_none hp]
  rfl

theorem matchUnderline_colorPre (r : List Char) :
    matchUnderline (spanColorPre ++ r) = none := by
  unfold matchUnderline
  have hp : ¬ ((uOpen.isPrefixOf (spanColorPre ++ r)) = true) := by
    rw [isPrefixOf_append_left_eq r (by decide)]
    decide
  rw [stripPrefix?_none hp]
  rfl

theorem matchUnderline_bgPre (r : List Char) :
    matchUnderline (spanBgPre ++ r) = none := by
  unfold matchUnderline
  have hp : ¬ ((uOpen.isPrefixOf (spanBgPre ++ r)) = true) := by
    rw [isPrefixOf_append_left_eq r (by decide)]
    decide
  rw [stripPrefix?_none hp]
  rfl

theorem matchColorSpan_bgPre (r : List Char) :
    matchColorSpan (spanBgPre ++ r) = none := by
  unfold matchColorSpan
  have hp : ¬ ((spanColorPre.isPrefixOf (spanBgPre ++ r)) = true) := by
    rw [isPrefixOf_append_left_eq r (by decide)]
    decide
  rw [stripPrefix?_none hp]
  rfl

theorem matchWrapPos_head {mh c : Char} {mrest r : List Char} (h : c ≠ mh) :
    matchWrapPos (mh :: mrest) (c :: r) = none := by
  unfold matchWrapPos
  have hp : ¬ (((mh :: mrest).isPrefixOf (c :: r)) = true) := by
    rw [isPrefixOf_cons_ne _ _ (Ne.symm h)]
    simp
  rw [stripPrefix?_none hp]
  rfl

theorem matchWrap3_head {c : Char} {r : List Char} (h : c ≠ '*') :
    matchWrapPos ("***".toList) (c :: r) = none := by
  rw [show ("***".toList) = '*' :: ("**".toList) from rfl]
  exact matchWrapPos_head h

theorem matchWrap2_head {c : Char} {r : List Char} (h : c ≠ '*') :
    matchWrapPos ("**".toList) (c :: r) = none := by
  rw [show ("**".toList) = '*' :: ("*".toList) from rfl]
  exact matchWrapPos_head h

theorem matchWrap1_head {c : Char} {r : List Char} (h : c ≠ '*') :
    matchWrapPos ("*".toList) (c :: r) = none := by
  rw [show ("*".toList) = '*' :: ([] : List Char) from rfl]
  exact matchWrapPos_head h

theorem matchWrapT_head {c : Char} {r : List Char} (h : c ≠ '~') :
    matchWrapPos ("~~".toList) (c :: r) = none := by
  rw [show ("~~".toList) = '~' :: ("~".toList) from rfl]
  exact matchWrapPos_head h

theorem matchWrap3_head2 {u0 : Char} {tail : List Char} (h : u0 ≠ '*') :
    matchWrapPos ("***".toList) ('*' :: u0 :: tail) = none := by
  unfold matchWrapPos
  have hp : ¬ ((("***".toList).isPrefixOf ('*' :: u0 :: tail)) = true) := by
    rw [show ("***".toList) = '*' :: '*' :: '*' :: ([] : List Char) from rfl]
    simp [List.isPrefixOf, h, Ne.symm h]
  rw [stripPrefix?_none hp]
  rfl

theorem matchWrap2_head2 {u0 : Char} {tail : List Char} (h : u0 ≠ '*') :
    matchWrapPos ("**".toList) ('*' :: u0 :: tail) = none := by
  unfold matchWrapPos
  have hp : ¬ ((("**".toList).isPrefixOf ('*' :: u0 :: tail)) = true) := by
    rw [show ("**".toList) = '*' :: '*' :: ([] : List Char) from rfl]
    simp [List.isPrefixOf, h, Ne.symm h]
  rw [stripPrefix?_none hp]
  rfl

theorem matchWrap3_head3 {u0 : Char} {tail : List Char} (h : u0 ≠ '*') :
    matchWrapPos ("***".toList) ('*' :: '*' :: u0 :: tail) = none := by
  unfold matchWrapPos
  have hp : ¬ ((("***".toList).isPrefixOf ('*' :: '*' :: u0 :: tail)) = true) := by
    rw [show ("***".toList) = '*' :: '*' :: '*' :: ([] : List Char) from rfl]
    simp [List.isPrefixOf, h, Ne.symm h]
  rw [stripPrefix?_none hp]
  rfl

theorem matchCode_head {c : Char} {r : List Char} (h : c ≠ backtick) :
    matchCode (c :: r) = none := by
  unfold matchCode
  rw [expectChar_ne _ h]
  rfl

theorem matchLink_head {c : Char} {r : List Char} (h : c ≠ '[') :
    matchLink (c :: r) = none := by
  unfold matchLink
  rw [expectChar_ne _ h]
  rfl

theorem matchWrap3_eval {u : List Char} (rem : List Char) (u0 : Char) (u' : List Char)
    (hu : u = u0 :: u') (hstar : '*' ∉ u) :
    matchWrapPos ("***".toList) (("***".toList) ++ (u ++ (("***".toList) ++ rem))) =
      some (u, rem) := by
  unfold matchWrapPos
  rw [stripPrefix?_append, Option.some_bind]
  subst hu
  rw [show (u0 :: u') ++ (("***".toList) ++ rem) =
    (u0 :: u') ++ ('*' :: ('*' :: '*' :: [])) ++ rem by simp]
  exact findClosePos_append u0 u' hstar

theorem matchWrap2_eval {u : List Char} (rem : List Char) (u0 : Char) (u' : List Char)
    (hu : u = u0 :: u') (hstar : '*' ∉ u) :
    matchWrapPos ("**".toList) (("**".toList) ++ (u ++ (("**".toList) ++ rem))) =
      some (u, rem) := by
  unfold matchWrapPos
  rw [stripPrefix?_append, Option.some_bind]
  subst hu
  rw [show (u0 :: u') ++ (("**".toList) ++ rem) =
    (u0 :: u') ++ ('*' :: ('*' :: [])) ++ rem by simp]
  exact findClosePos_append u0 u' hstar

theorem matchWrap1_eval {u : List Char} (rem : List Char) (u0 : Char) (u' : List Char)
    (hu : u = u0 :: u') (hstar : '*' ∉ u) :
    matchWrapPos ("*".toList) (("*".toList) ++ (u ++ (("*".toList) ++ rem))) =
      some (u, rem) := by
  unfold matchWrapPos
  rw [stripPrefix?_append, Option.some_bind]
  subst hu
  rw [show (u0 :: u') ++ (("*".toList) ++ rem) =
    (u0 :: u') ++ ('*' :: []) ++ rem by simp]
  exact findClosePos_append u0 u' hstar

theorem matchCode_eval {u rem : List Char} (hne : u ≠ []) (htick : backtick ∉ u) :
    matchCode (backtick :: (u ++ (backtick :: rem))) = some (u, rem) := by
  unfold matchCode
  rw [expectChar_self, Option.some_bind]
  rw [show u ++ (backtick :: rem) = u ++ (backtick :: []) ++ rem by simp]
  rw [findClose_append htick, Option.some_bind, if_neg hne]

theorem matchColorSpan_eval {hex inner rem : List Char}
    (hq : '"' ∉ hex) (hlt : '<' ∉ inner) :
    matchColorSpan (spanColorPre ++ ((' ' :: hex) ++ ('"' :: '>' ::
      (inner ++ (spanClose ++ rem))))) = some (pyStrip (' ' :: hex), inner, rem) := by
  unfold matchColorSpan
  rw [stripPrefix?_append, Option.some_bind]
  have hqm : '"' ∉ ' ' :: hex := by
    intro hmem
    rcases List.mem_cons.mp hmem with hc | hc
    · cases hc
    · exact hq hc
  rw [show (' ' :: hex) ++ ('"' :: '>' :: (inner ++ (spanClose ++ rem))) =
    (' ' :: hex) ++ ('"' :: []) ++ ('>' :: (inner ++ (spanClose ++ rem))) by simp]
  rw [findClose_append hqm, Option.some_bind, if_neg (by simp)]
  rw [expectChar_self, Option.some_bind]
  rw [show inner ++ (spanClose ++ rem) =
    inner ++ ('<' :: ("/span>".toList)) ++ rem by simp [spanClose]]
  rw [show spanClose = '<' :: ("/span>".toList) from rfl]
  rw [findClose_append hlt]
  rfl

theorem matchBgSpan_eval {hex inner rem : List Char}
    (hq : '"' ∉ hex) (hlt : '<' ∉ inner) :
    matchBgSpan (spanBgPre ++ ((' ' :: hex) ++ ('"' :: '>' ::
      (inner ++ (spanClose ++ rem))))) = some (pyStrip (' ' :: hex), inner, rem) := by
  unfold matchBgSpan
  rw [stripPrefix?_append, Option.some_bind]
  have hqm : '"' ∉ ' ' :: hex := by
    intro hmem
    rcases List.mem_cons.mp hmem with hc | hc
    · cases hc
    · exact hq hc
  rw [show (' ' :: hex) ++ ('"' :: '>' :: (inner ++ (spanClose ++ rem))) =
    (' ' :: hex) ++ ('"' :: []) ++ ('>' :: (inner ++ (spanClose ++ rem))) by simp]
  rw [findClose_append hqm, Option.some_bind, if_neg (by simp)]
  rw [expectChar_self, Option.some_bind]
  rw [show inner ++ (spanClose ++ rem) =
    inner ++ ('<' :: ("/span>".toList)) ++ rem by simp [spanClose]]
  rw [show spanClose = '<' :: ("/span>".toList) from rfl]
  rw [findClose_append hlt]
  rfl

theorem parseRichStep_color {rec : List Char → Ann → List Seg}
    {t css inner rem : List Char} (ann : Ann)
    (hm : matchColorSpan t = some (css, inner, rem)) :
    parseRichStep rec t ann =
      rec inner {ann with color := some (cssToNotion css)} ++ rec rem ann := by
  cases t with
  | nil => rw [matchColorSpan_nil] at hm; cases hm
  | cons c r =>
    unfold parseRichStep
    dsimp only
    rw [hm]

theorem parseRichStep_bg {rec : List Char → Ann → List Seg}
    {t css inner rem : List Char} (ann : Ann)
    (h1 : matchColorSpan t = none)
    (hm : matchBgSpan t = some (css, inner, rem)) :
    parseRichStep rec t ann =
      rec inner {ann with color := some (cssToNotion css)} ++ rec rem ann := by
  cases t with
  | nil => rw [matchBgSpan_nil] at hm; cases hm
  | cons c r =>
    unfold parseRichStep
    dsimp only
    rw [h1, hm]

theorem parseRichStep_boldItalic {rec : List Char → Ann → List Seg}
    {t inner rem : List Char} (ann : Ann)
    (h1 : matchColorSpan t = none)
    (h2 : matchBgSpan t = none)
    (h3 : matchUnderline t = none)
    (hm : matchWrapPos ("***".toList) t = some (inner, rem)) :
    parseRichStep rec t ann =
      rec inner {ann with bold := true, italic := true} ++ rec rem ann := by
  cases t with
  | nil => cases hm
  | cons c r =>
    unfold parseRichStep
    dsimp only
    rw [h1, h2, h3, hm]

theorem parseRichStep_bold {rec : List Char → Ann → List Seg}
    {t inner rem : List Char} (ann : Ann)
    (h1 : matchColorSpan t = none)
    (h2 : matchBgSpan t = none)
    (h3 : matchUnderline t = none)
    (h4 : matchWrapPos ("***".toList) t = none)
    (hm : matchWrapPos ("**".toList) t = some (inner, rem)) :
    parseRichStep rec t ann =
      rec inner {ann with bold := true} ++ rec rem ann := by
  cases t with
  | nil => cases hm
  | cons c r =>
    unfold parseRichStep
    dsimp only
    rw [h1, h2, h3, h4, hm]

theorem parseRichStep_italic {rec : List Char → Ann → List Seg}
    {t inner rem : List Char} (ann : Ann)
    (h1 : matchColorSpan t = none)
    (h2 : matchBgSpan t = none)
    (h3 : matchUnderline t = none)
    (h4 : matchWrapPos ("***".toList) t = none)
    (h5 : matchWrapPos ("**".toList) t = none)
    (hm : matchWrapPos ("*".toList) t = some (inner, rem)) :
    parseRichStep rec t ann =
      rec inner {ann with italic := true} ++ rec rem ann := by
  cases t with
  | nil => cases hm
  | cons c r =>
    unfold parseRichStep
    dsimp only
    rw [h1, h2, h3, h4, h5, hm]

theorem parseRichStep_code {rec : List Char → Ann → List Seg}
    {t inner rem : List Char} (ann : Ann)
    (h1 : matchColorSpan t = none)
    (h2 : matchBgSpan t = none)
    (h3 : matchUnderline t = none)
    (h4 : matchWrapPos ("***".toList) t = none)
    (h5 : matchWrapPos ("**".toList) t = none)
    (h6 : matchWrapPos ("*".toList) t = none)
    (h7 : matchWrapPos ("~~".toList) t = none)
    (hm : matchCode t = some (inner, rem)) :
    parseRichStep rec t ann =
      rec inner {ann with code := true} ++ rec rem ann := by
  cases t with
  | nil => cases hm
  | cons c r =>
    unfold parseRichStep
    dsimp only
    rw [h1, h2, h3, h4, h5, h6, h7, hm]

theorem parseRichStep_litAll {rec : List Char → Ann → List Seg}
    {c : Char} {rest : List Char} (ann : Ann)
    (h1 : matchColorSpan (c :: rest) = none)
    (h2 : matchBgSpan (c :: rest) = none)
    (h3 : matchUnderline (c :: rest) = none)
    (h4 : matchWrapPos ("***".toList) (c :: rest) = none)
    (h5 : matchWrapPos ("**".toList) (c :: rest) = none)
    (h6 : matchWrapPos ("*".toList) (c :: rest) = none)
    (h7 : matchWrapPos ("~~".toList) (c :: rest) = none)
    (h8 : matchCode (c :: rest) = none)
    (h9 : matchLink (c :: rest) = none)
    (hall : ∀ x ∈ c :: rest, isSpecial x = false) :
    parseRichStep rec (c :: rest) ann =
      [{ content := c :: rest, ann := ann, link := none }] := by
  unfold parseRichStep
  dsimp only
  rw [h1, h2, h3, h4, h5, h6, h7, h8, h9]
  dsimp only
  have hpre : (c :: rest).takeWhile (fun ch => !(isSpecial ch)) = c :: rest := by
    apply List.takeWhile_eq_self_iff.mpr
    intro x hx
    simp [hall x hx]
  rw [hpre, if_neg (by simp), if_pos rfl]

theorem parseRichStep_litOne {rec : List Char → Ann → List Seg}
    {c : Char} {rest : List Char} (ann : Ann)
    (h1 : matchColorSpan (c :: rest) = none)
    (h2 : matchBgSpan (c :: rest) = none)
    (h3 : matchUnderline (c :: rest) = none)
    (h4 : matchWrapPos ("***".toList) (c :: rest) = none)
    (h5 : matchWrapPos ("**".toList) (c :: rest) = none)
    (h6 : matchWrapPos ("*".toList) (c :: rest) = none)
    (h7 : matchWrapPos ("~~".toList) (c :: rest) = none)
    (h8 : matchCode (c :: rest) = none)
    (h9 : matchLink (c :: rest) = none)
    (hsp : isSpecial c = true) :
    parseRichStep rec (c :: rest) ann =
      { content := [c], ann := ann, link := none } :: rec rest ann := by
  unfold parseRichStep
  dsimp only
  rw [h1, h2, h3, h4, h5, h6, h7, h8, h9]
  dsimp only
  have hpre : (c :: rest).takeWhile (fun ch => !(isSpecial ch)) = [] := by
    rw [List.takeWhile_cons]
    simp [hsp]
  rw [hpre, if_pos (show ([] : List Char).length = 0 from rfl)]
  rfl

theorem parseRich_nil (ann : Ann) : parseRich [] ann = [] := rfl

theorem parseRich_plain {u : List Char} (ann : Ann) (hne : u ≠ [])
    (hns : ∀ x ∈ u, isSpecial x = false) :
    parseRich u ann = [{ content := u, ann := ann, link := none }] := by
  cases u with
  | nil => exact absurd rfl hne
  | cons u0 u' =>
    have h0 := hns u0 (List.mem_cons_self _ _)
    simp only [isSpecial, Bool.or_eq_false_iff, decide_eq_false_iff_not] at h0
    obtain ⟨⟨⟨⟨hlt, hst⟩, htl⟩, htk⟩, hbr⟩ := h0
    rw [parseRich_unfold]
    exact parseRichStep_litAll ann
      (matchColorSpan_head hlt) (matchBgSpan_head hlt) (matchUnderline_head hlt)
      (matchWrap3_head hst) (matchWrap2_head hst) (matchWrap1_head hst)
      (matchWrapT_head htl) (matchCode_head htk) (matchLink_head hbr) hns

theorem parseRich_boldItalic {u rem : List Char} (ann : Ann) (u0 : Char)
    (u' : List Char) (hu : u = u0 :: u') (hstar : '*' ∉ u) :
    parseRich (("***".toList) ++ (u ++ (("***".toList) ++ rem))) ann =
      parseRich u {ann with bold := true, italic := true} ++ parseRich rem ann := by
  have hm := matchWrap3_eval rem u0 u' hu hstar
  subst hu
  rw [parseRich_unfold]
  rw [show ("***".toList) ++ ((u0 :: u') ++ (("***".toList) ++ rem)) =
    '*' :: '*' :: '*' :: ((u0 :: u') ++ (("***".toList) ++ rem)) from rfl]
  exact parseRichStep_boldItalic ann
    (matchColorSpan_head (by decide)) (matchBgSpan_head (by decide))
    (matchUnderline_head (by decide)) hm

theorem parseRich_bold {u rem : List Char} (ann : Ann) (u0 : Char)
    (u' : List Char) (hu : u = u0 :: u') (h0 : u0 ≠ '*') (hstar : '*' ∉ u) :
    parseRich (("**".toList) ++ (u ++ (("**".toList) ++ rem))) ann =
      parseRich u {ann with bold := true} ++ parseRich rem ann := by
  have hm := matchWrap2_eval rem u0 u' hu hstar
  subst hu
  rw [parseRich_unfold]
  rw [show ("**".toList) ++ ((u0 :: u') ++ (("**".toList) ++ rem)) =
    '*' :: '*' :: ((u0 :: u') ++ (("**".toList) ++ rem)) from rfl]
  exact parseRichStep_bold ann
    (matchColorSpan_head (by decide)) (matchBgSpan_head (by decide))
    (matchUnderline_head (by decide)) (matchWrap3_head3 h0) hm

theorem parseRich_italic {u rem : List Char} (ann : Ann) (u0 : Char)
    (u' : List Char) (hu : u = u0 :: u') (h0 : u0 ≠ '*') (hstar : '*' ∉ u) :
    parseRich (("*".toList) ++ (u ++ (("*".toList) ++ rem))) ann =
      parseRich u {ann with italic := true} ++ parseRich rem ann := by
  have hm := matchWrap1_eval rem u0 u' hu hstar
  subst hu
  rw [parseRich_unfold]
  rw [show ("*".toList) ++ ((u0 :: u') ++ (("*".toList) ++ rem)) =
    '*' :: ((u0 :: u') ++ (("*".toList) ++ rem)) from rfl]
  exact parseRichStep_italic ann
    (matchColorSpan_head (by decide)) (matchBgSpan_head (by decide))
    (matchUnderline_head (by decide)) (matchWrap3_head2 h0) (matchWrap2_head2 h0) hm

theorem parseRich_code {u rem : List Char} (ann : Ann) (hne : u ≠ [])
    (htick : backtick ∉ u) :
    parseRich (backtick :: (u ++ (backtick :: rem))) ann =
      parseRich u {ann with code := true} ++ parseRich rem ann := by
  rw [parseRich_unfold]
  exact parseRichStep_code ann
    (matchColorSpan_head (by decide)) (matchBgSpan_head (by decide))
    (matchUnderline_head (by decide)) (matchWrap3_head (by decide))
    (matchWrap2_head (by decide)) (matchWrap1_head (by decide))
    (matchWrapT_head (by decide)) (matchCode_eval hne htick)

theorem parseRich_colorWrap {hex inner rem : List Char} (ann : Ann)
    (hq : '"' ∉ hex) (hlt : '<' ∉ inner) :
    parseRich (spanColorPre ++ ((' ' :: hex) ++ ('"' :: '>' ::
        (inner ++ (spanClose ++ rem))))) ann =
      parseRich inner {ann with color := some (cssToNotion (pyStrip (' ' :: hex)))}
        ++ parseRich rem ann := by
  rw [parseRich_unfold]
  exact parseRichStep_color ann (matchColorSpan_eval hq hlt)

theorem parseRich_bgWrap {hex inner rem : List Char} (ann : Ann)
    (hq : '"' ∉ hex) (hlt : '<' ∉ inner) :
    parseRich (spanBgPre ++ ((' ' :: hex) ++ ('"' :: '>' ::
        (inner ++ (spanClose ++ rem))))) ann =
      parseRich inner {ann with color := some (cssToNotion (pyStrip (' ' :: hex)))}
        ++ parseRich rem ann := by
  rw [parseRich_unfold]
  exact parseRichStep_bg ann (matchColorSpan_bgPre _) (matchBgSpan_eval hq hlt)

theorem parseRich_applyWraps {u : List Char} (ann : Ann) (b i cd : Bool)
    (hl : Option (List Char)) (hne : u ≠ []) (hns : ∀ x ∈ u, isSpecial x = false) :
    parseRich (applyWraps ⟨b, i, false, cd, false, none, hl⟩ u) ann =
      [{ content := u,
         ann := { ann with
           bold := ann.bold || b,
           italic := ann.italic || i,
           code := ann.code || cd },
         link := none }] := by
  obtain ⟨u0, u', hu⟩ : ∃ u0 u', u = u0 :: u' := by
    cases u with
    | nil => exact absurd rfl hne
    | cons x xs => exact ⟨x, xs, rfl⟩
  have hstar : '*' ∉ u := fun hm => absurd (hns '*' hm) (by decide)
  have htick : backtick ∉ u := fun hm => absurd (hns backtick hm) (by decide)
  have h0 : u0 ≠ '*' := by
    have hx := hns u0 (hu ▸ List.mem_cons_self u0 u')
    intro he
    rw [he] at hx
    exact absurd hx (by decide)
  have hstarX : '*' ∉ backtick :: (u ++ (backtick :: [])) := by
    intro hm
    simp only [List.mem_cons, List.mem_append, List.not_mem_nil, or_false] at hm
    rcases hm with h | h | h
    · exact absurd h (by decide)
    · exact hstar h
    · exact absurd h (by decide)
  cases b with
  | false =>
    cases i with
    | false =>
      have hshape : applyWraps ⟨false, false, false, cd, false, none, hl⟩ u =
          (if cd = true then backtick :: (u ++ (backtick :: [])) else u) := by
        cases cd <;> simp [applyWraps]
      rw [hshape]
      cases cd with
      | false =>
        simp only [Bool.false_eq_true, if_false]
        rw [parseRich_plain ann hne hns]
        simp
      | true =>
        simp only [if_true]
        rw [parseRich_code ann hne htick, parseRich_nil, List.append_nil,
          parseRich_plain _ hne hns]
        simp
    | true =>
      have hshape : applyWraps ⟨false, true, false, cd, false, none, hl⟩ u =
          ("*".toList) ++ ((if cd = true then backtick :: (u ++ (backtick :: []))
            else u) ++ (("*".toList) ++ [])) := by
        cases cd <;> simp [applyWraps]
      rw [hshape]
      cases cd with
      | false =>
        simp only [Bool.false_eq_true, if_false]
        rw [parseRich_italic ann u0 u' hu h0 hstar, parseRich_nil, List.append_nil,
          parseRich_plain _ hne hns]
        simp
      | true =>
        simp only [if_true]
        rw [parseRich_italic ann backtick (u ++ (backtick :: [])) rfl
          (by decide) hstarX, parseRich_nil, List.append_nil]
        rw [parseRich_code _ hne htick, parseRich_nil, List.append_nil,
          parseRich_plain _ hne hns]
        simp
  | true =>
    cases i with
    | false =>
      have hshape : applyWraps ⟨true, false, false, cd, false, none, hl⟩ u =
          ("**".toList) ++ ((if cd = true then backtick :: (u ++ (backtick :: []))
            else u) ++ (("**".toList) ++ [])) := by
        cases cd <;> simp [applyWraps]
      rw [hshape]
      cases cd with
      | false =>
        simp only [Bool.false_eq_true, if_false]
        rw [parseRich_bold ann u0 u' hu h0 hstar, parseRich_nil, List.append_nil,
          parseRich_plain _ hne hns]
        simp
      | true =>
        simp only [if_true]
        rw [parseRich_bold ann backtick (u ++ (backtick :: [])) rfl
          (by decide) hstarX, parseRich_nil, List.append_nil]
        rw [parseRich_code _ hne htick, parseRich_nil, List.append_nil,
          parseRich_plain _ hne hns]
        simp
    | true =>
      have hshape : applyWraps ⟨true, true, false, cd, false, none, hl⟩ u =
          ("***".toList) ++ ((if cd = true then backtick :: (u ++ (backtick :: []))
            else u) ++ (("***".toList) ++ [])) := by
        cases cd <;> simp [applyWraps]
      rw [hshape]
      cases cd with
      | false =>
        simp only [Bool.false_eq_true, if_false]
        rw [parseRich_boldItalic ann u0 u' hu hstar, parseRich_nil, List.append_nil,
          parseRich_plain _ hne hns]
        simp
      | true =>
        simp only [if_true]
        rw [parseRich_boldItalic ann backtick (u ++ (backtick :: [])) rfl
          hstarX, parseRich_nil, List.append_nil]
        rw [parseRich_code _ hne htick, parseRich_nil, List.append_nil,
          parseRich_plain _ hne hns]
        simp

theorem flattenSegs_single (u : List Char) (a : Ann) (lk : Option (List Char)) :
    flattenSegs [{ content := u, ann := a, link := lk }] =
      u.map (fun c => (c, a, lk)) := by
  simp [flattenSegs]

theorem stripOneLead_eq {t : List Char} (h : t.head? ≠ some ' ') :
    stripOneLead t = ([], t) := by
  cases t with
  | nil => rfl
  | cons c r =>
    simp only [List.head?_cons, ne_eq, Option.some.injEq] at h
    simp [stripOneLead, h]

theorem stripOneTrail_eq {t : List Char} (h : t.getLast? ≠ some ' ') :
    stripOneTrail t = (t, []) := by
  simp [stripOneTrail, h]

theorem computeFlags_mkAnns (b i cd : Bool) (co : Option (List Char))
    (hco : ∀ n, co = some n → n ≠ [] ∧ n ≠ ("default".toList)) :
    computeFlags (mkAnns b i cd co) = ⟨b, i, false, cd, false, none, co⟩ := by
  cases co with
  | none => cases b <;> cases i <;> cases cd <;> rfl
  | some n =>
    obtain ⟨h1, h2⟩ := hco n rfl
    have h3 : n ≠ ['d', 'e', 'f', 'a', 'u', 'l', 't'] := h2
    cases b <;> cases i <;> cases cd <;>
      simp [mkAnns, computeFlags, annStep, h1, h2, h3]

/-- The 18 rows of the color tables, checked pointwise: every Notion color
name is non-empty and distinct from `default`, its CSS value contains no
quote, survives a `strip` after the rendered space, and the two tables are
mutually inverse lookups. -/
theorem color_table_facts : ∀ p ∈ COLOR_MAP,
    p.1 ≠ [] ∧ p.1 ≠ ("default".toList) ∧ '"' ∉ p.2 ∧
    pyStrip (' ' :: p.2) = p.2 ∧
    alookup p.1 COLOR_MAP = some p.2 ∧
    alookup p.2 CSS_TO_NOTION_COLOR = some p.1 := by decide

theorem applyWraps_no_lt {u : List Char} (b i cd : Bool) (hl : Option (List Char))
    (h : '<' ∉ u) : '<' ∉ applyWraps ⟨b, i, false, cd, false, none, hl⟩ u := by
  have h1 : ¬ ('<' ∈ ("***".toList : List Char)) := by decide
  have h2 : ¬ ('<' ∈ ("**".toList : List Char)) := by decide
  have h3 : ¬ ('<' ∈ ("*".toList : List Char)) := by decide
  have h4 : ¬ ('<' ∈ ([backtick] : List Char)) := by decide
  have h5 : '<' ≠ backtick := by decide
  cases b <;> cases i <;> cases cd <;>
    simp [applyWraps, List.mem_append, List.mem_cons, h1, h2, h3, h4, h5, h]

theorem renderRich_single (u : List Char) (anns : List NAnn) :
    renderRich [(u, anns)] = renderSpan u anns := by
  simp [renderRich]

theorem renderSpan_noColor (b i cd : Bool) {u : List Char}
    (hne : u ≠ []) (hlead : u.head? ≠ some ' ') (htrail : u.getLast? ≠ some ' ') :
    renderSpan u (mkAnns b i cd none) =
      applyWraps ⟨b, i, false, cd, false, none, none⟩ u := by
  simp only [renderSpan, computeFlags_mkAnns b i cd none (fun n h => by cases h),
    stripOneLead_eq hlead, stripOneTrail_eq htrail, if_neg hne]
  simp

theorem renderSpan_color (b i cd : Bool) {n css : List Char} {u : List Char}
    (hne : u ≠ []) (hlead : u.head? ≠ some ' ') (htrail : u.getLast? ≠ some ' ')
    (hn : n ≠ [] ∧ n ≠ ("default".toList)) (hlk : alookup n COLOR_MAP = some css) :
    renderSpan u (mkAnns b i cd (some n)) =
      (if hasInfix ("_background".toList) n then
        ("<span style=\"background-color: ".toList) ++ css ++ ("\">".toList)
          ++ applyWraps ⟨b, i, false, cd, false, none, some n⟩ u
          ++ ("</span>".toList)
      else
        ("<span style=\"color: ".toList) ++ css ++ ("\">".toList)
          ++ applyWraps ⟨b, i, false, cd, false, none, some n⟩ u
          ++ ("</span>".toList)) := by
  simp only [renderSpan,
    computeFlags_mkAnns b i cd (some n) (fun m h => by cases h; exact hn),
    stripOneLead_eq hlead, stripOneTrail_eq htrail, if_neg hne, hlk]
  simp

/-- C1 (amended).  For a non-empty text run containing no importer special
character (`<`, `*`, `~`, backtick, `[`) and neither starting nor ending
with a space, carrying any combination of bold, italic and inline-code plus
an optional highlight color drawn from the 18-entry `COLOR_MAP`, rendering
with the exporter's `_rich_text_to_markdown` and re-parsing with the
importer's `_parse_rich_text_recursive` reproduces the same text with the
same annotation set attached to each character.  The frozen claim quantified
over every non-empty run; `c1_counterexample` refutes that generality (a
run with a leading space loses the annotation on the space). -/
theorem c1_rich_roundtrip {u : List Char} (b i cd : Bool) (co : Option (List Char))
    (hne : u ≠ []) (hns : ∀ x ∈ u, isSpecial x = false)
    (hlead : u.head? ≠ some ' ') (htrail : u.getLast? ≠ some ' ')
    (hco : co = none ∨ ∃ p ∈ COLOR_MAP, co = some p.1) :
    flattenSegs (parseRich (renderRich [(u, mkAnns b i cd co)]) Ann.empty) =
      u.map (fun c =>
        (c, ({ bold := b, italic := i, code := cd, color := co } : Ann),
         (none : Option (List Char)))) := by
  have hr := renderRich_single u (mkAnns b i cd co)
  have hltu : '<' ∉ u := fun hm => absurd (hns '<' hm) (by decide)
  rcases hco with hco | ⟨p, hpmem, hcoeq⟩
  · subst hco
    rw [hr, renderSpan_noColor b i cd hne hlead htrail,
      parseRich_applyWraps Ann.empty b i cd none hne hns, flattenSegs_single]
    simp [Ann.empty]
  · subst hcoeq
    obtain ⟨f1, f2, f3, f4, f5, f6⟩ := color_table_facts p hpmem
    have hcss : cssToNotion p.2 = p.1 := by simp [cssToNotion, f6]
    have hlt := applyWraps_no_lt b i cd (some p.1) hltu
    rw [hr, renderSpan_color b i cd hne hlead htrail ⟨f1, f2⟩ f5]
    by_cases hbg : hasInfix ("_background".toList) p.1 = true
    · rw [if_pos hbg]
      have hpre : ("<span style=\"background-color: ".toList : List Char) =
          spanBgPre ++ [' '] := by decide
      have hq2 : ("\">".toList : List Char) = '"' :: '>' :: [] := by decide
      rw [hpre, hq2]
      have hshape : (spanBgPre ++ [' ']) ++ p.2 ++ ('"' :: '>' :: []) ++
            applyWraps ⟨b, i, false, cd, false, none, some p.1⟩ u ++
            ("</span>".toList) =
          spanBgPre ++ ((' ' :: p.2) ++ ('"' :: '>' ::
            (applyWraps ⟨b, i, false, cd, false, none, some p.1⟩ u ++
              (spanClose ++ ([] : List Char))))) := by
        simp [spanClose, List.append_assoc]
      rw [hshape, parseRich_bgWrap Ann.empty f3 hlt, f4, hcss,
        parseRich_applyWraps _ b i cd (some p.1) hne hns, parseRich_nil,
        List.append_nil, flattenSegs_single]
      simp [Ann.empty]
    · rw [if_neg hbg]
      have hpre : ("<span style=\"color: ".toList : List Char) =
          spanColorPre ++ [' '] := by decide
      have hq2 : ("\">".toList : List Char) = '"' :: '>' :: [] := by decide
      rw [hpre, hq2]
      have hshape : (spanColorPre ++ [' ']) ++ p.2 ++ ('"' :: '>' :: []) ++
            applyWraps ⟨b, i, false, cd, false, none, some p.1⟩ u ++
            ("</span>".toList) =
          spanColorPre ++ ((' ' :: p.2) ++ ('"' :: '>' ::
            (applyWraps ⟨b, i, false, cd, false, none, some p.1⟩ u ++
              (spanClose ++ ([] : List Char))))) := by
        simp [spanClose, List.append_assoc]
      rw [hshape, parseRich_colorWrap Ann.empty f3 hlt, f4, hcss,
        parseRich_applyWraps _ b i cd (some p.1) hne hns, parseRich_nil,
        List.append_nil, flattenSegs_single]
      simp [Ann.empty]

/-- C1 witness: the run `hi` with bold and the color `red` round-trips to
two characters each carrying bold and color `red`. -/
theorem c1_roundtrip_witness :
    flattenSegs (parseRich (renderRich [("hi".toList,
        mkAnns true false false (some ("red".toList)))]) Ann.empty) =
      ("hi".toList).map (fun c =>
        (c, ({ bold := true, color := some ("red".toList) } : Ann),
         (none : Option (List Char)))) :=
  c1_rich_roundtrip true false false (some ("red".toList)) (by decide) (by decide)
    (by decide) (by decide) (by decide)

/-- C1 counterexample: the bold run ` a` (leading space).  The exporter
moves the space outside the `**` markers, so re-parsing yields a plain
space followed by a bold `a` — the space has lost its bold annotation and
the per-character annotation sets differ, refuting the frozen claim for
arbitrary non-empty runs. -/
theorem c1_counterexample :
    flattenSegs (parseRich (renderRich [((" a".toList),
        mkAnns true false false none)]) Ann.empty) =
      [(' ', Ann.empty, none), ('a', ({ bold := true } : Ann), none)] ∧
    flattenSegs (parseRich (renderRich [((" a".toList),
        mkAnns true false false none)]) Ann.empty) ≠
      (" a".toList).map (fun c =>
        (c, ({ bold := true } : Ann), (none : Option (List Char)))) := by
  constructor
  · decide
  · decide

/-- C6.  The recursive rich-text encoder terminates on every input: the
fuel-indexed recursion is stable at any fuel exceeding the input length (so
the recursion reaches a fixed point — `length + 1` steps always suffice);
when the text begins with a special character that matches no formatting
pattern that character is emitted as a one-character literal span and the
scan advances by exactly one; and every pattern branch hands the recursion
strictly shorter suffixes (inner text and remainder shorter than the
input, for each of the six matchers). -/
theorem c6_parser_termination :
    (∀ (fuel : Nat) (t : List Char) (ann : Ann), t.length < fuel →
        parseRichF fuel t ann = parseRich t ann) ∧
    (∀ (c : Char) (rest : List Char) (ann : Ann),
        isSpecial c = true →
        matchColorSpan (c :: rest) = none →
        matchBgSpan (c :: rest) = none →
        matchUnderline (c :: rest) = none →
        matchWrapPos ("***".toList) (c :: rest) = none →
        matchWrapPos ("**".toList) (c :: rest) = none →
        matchWrapPos ("*".toList) (c :: rest) = none →
        matchWrapPos ("~~".toList) (c :: rest) = none →
        matchCode (c :: rest) = none →
        matchLink (c :: rest) = none →
        parseRich (c :: rest) ann =
          { content := [c], ann := ann, link := none } :: parseRich rest ann) ∧
    (∀ (t css inner rem : List Char), matchColorSpan t = some (css, inner, rem) →
        inner.length < t.length ∧ rem.length < t.length) ∧
    (∀ (t css inner rem : List Char), matchBgSpan t = some (css, inner, rem) →
        inner.length < t.length ∧ rem.length < t.length) ∧
    (∀ (t inner rem : List Char), matchUnderline t = some (inner, rem) →
        inner.length < t.length ∧ rem.length < t.length) ∧
    (∀ (marker t inner rem : List Char), marker ≠ [] →
        matchWrapPos marker t = some (inner, rem) →
        inner.length < t.length ∧ rem.length < t.length) ∧
    (∀ (t inner rem : List Char), matchCode t = some (inner, rem) →
        inner.length < t.length ∧ rem.length < t.length) ∧
    (∀ (t txt url rem : List Char), matchLink t = some (txt, url, rem) →
        txt.length < t.length ∧ rem.length < t.length) := by
  refine ⟨?_, ?_, ?_, ?_, ?_, ?_, ?_, ?_⟩
  · intro fuel t ann h
    exact parseRichF_fuel ann h
  · intro c rest ann hsp h1 h2 h3 h4 h5 h6 h7 h8 h9
    rw [parseRich_unfold]
    exact parseRichStep_litOne ann h1 h2 h3 h4 h5 h6 h7 h8 h9 hsp
  · intro t css inner rem h
    exact matchColorSpan_sizes h
  · intro t css inner rem h
    exact matchBgSpan_sizes h
  · intro t inner rem h
    exact matchUnderline_sizes h
  · intro marker t inner rem hm h
    exact matchWrapPos_sizes hm h
  · intro t inner rem h
    exact matchCode_sizes h
  · intro t txt url rem h
    exact matchLink_sizes h

/-- C6 witness: on `*x` the lone `*` matches no pattern and is emitted as a
one-character literal, the scan advancing by exactly one. -/
theorem c6_termination_witness :
    parseRich ('*' :: "x".toList) Ann.empty =
      { content := ['*'], ann := Ann.empty, link := none } ::
        parseRich ("x".toList) Ann.empty :=
  c6_parser_termination.2.1 '*' ("x".toList) Ann.empty (by decide) (by decide)
    (by decide) (by decide) (by decide) (by decide) (by decide) (by decide)
    (by decide) (by decide)

/-- C5.  A callout whose own rich text strips to empty and whose first
child id resolves hoists that child's text into the callout line after the
icon, and the subsequent child rendering covers exactly the remaining ids
— the first child is consumed by the hoist and excluded from the loop, so
its text appears exactly once. -/
theorem c5_callout_hoist (store : List (List Char × EBlock)) (fuel indent : Nat)
    (bid c0 : List Char) (restIds : List (List Char)) (b fc : EBlock)
    (h1 : alookup bid store = some b)
    (h2 : b.type = EType.callout)
    (h3 : ¬ b.alive = some false)
    (h4 : pyStrip (renderRich b.title) = [])
    (h5 : b.content = c0 :: restIds)
    (h6 : alookup c0 store = some fc) :
    renderBlock store (fuel + 1) bid indent =
      ('>' :: ' ' :: calloutIcon b.icon) ++ (' ' :: renderRich fc.title) ++
        ("\n\n".toList) ++
        (restIds.map (fun cid => renderBlock store fuel cid indent)).flatten := by
  obtain ⟨ty, alv, ttl, cont, ico⟩ := b
  subst h2
  subst h5
  simp only [renderBlock, h1]
  rw [if_neg h3]
  rw [if_pos ⟨h4, List.cons_ne_nil c0 restIds⟩, h6]

/-- C5 witness: the callout with empty own text and first child
`Note: hello` renders as `> 💡 Note: hello`, with the first child dropped
from the child loop and its text appearing exactly once in the output. -/
theorem c5_callout_witness :
    renderBlock c5Store 3 ("root".toList) 0 =
      ('>' :: ' ' :: calloutIcon none) ++
        (' ' :: renderRich [("Note: hello".toList, [])]) ++ ("\n\n".toList) ++
        ((["c2".toList]).map (fun cid => renderBlock c5Store 2 cid 0)).flatten ∧
    renderBlock c5Store 3 ("root".toList) 0 =
      ("> 💡 Note: hello\n\n\nmore\n".toList) ∧
    countOccs ("Note: hello".toList) (renderBlock c5Store 3 ("root".toList) 0) = 1 :=
  ⟨c5_callout_hoist c5Store 2 0 ("root".toList) ("c1".toList) (["c2".toList])
      { type := EType.callout, content := ["c1".toList, "c2".toList] }
      { type := EType.text, title := [("Note: hello".toList, [])] }
      rfl rfl (by decide) (by decide) rfl rfl,
   by decide, by decide⟩

/-- C8 (amended).  The `column_list` dichotomy is decided by the NUMBER of
column-typed children collected into `columns_content` — including columns
whose child list is empty — not by the number of non-empty columns: with
more than one collected column the renderer writes an HTML table with
exactly one `td` cell per collected column in source order, and with at
most one collected column it renders that column's children inline with no
table wrapper.  The frozen claim's `exactly one non-empty column → inline`
is refuted by `c8_counterexample`. -/
theorem c8_column_render (store : List (List Char × EBlock)) (fuel indent : Nat)
    (bid : List Char) (b : EBlock)
    (h1 : alookup bid store = some b)
    (h2 : b.type = EType.column_list)
    (h3 : ¬ b.alive = some false)
    (h4 : b.content ≠ []) :
    (1 < (columnsContent store b.content).length →
      renderBlock store (fuel + 1) bid indent =
        ("\n<table><tr>\n".toList) ++
          ((columnsContent store b.content).map (fun col =>
            ("<td valign=\"top\">\n\n".toList) ++
              (col.map (fun cid => renderBlock store fuel cid 0)).flatten ++
              ("\n</td>\n".toList))).flatten ++
          ("</tr></table>\n\n".toList)) ∧
    ((columnsContent store b.content).length ≤ 1 →
      renderBlock store (fuel + 1) bid indent =
        ((columnsContent store b.content).map (fun col =>
          (col.map (fun cid => renderBlock store fuel cid indent)).flatten)).flatten) := by
  obtain ⟨ty, alv, ttl, cont, ico⟩ := b
  dsimp only at h2 h3 h4 ⊢
  subst h2
  constructor
  · intro hlen
    simp only [renderBlock, h1]
    rw [if_neg h3]
    rw [if_neg h4, if_pos hlen]
  · intro hlen
    simp only [renderBlock, h1]
    rw [if_neg h3]
    rw [if_neg h4,
      if_neg (show ¬ 1 < (columnsContent store cont).length by omega)]

/-- C8 witness: two columns each holding one text child produce the HTML
table with one `td` cell per column. -/
theorem c8_column_witness :
    renderBlock c8Store 2 ("root".toList) 0 =
      ("\n<table><tr>\n".toList) ++
        ((columnsContent c8Store (["a".toList, "b".toList])).map (fun col =>
          ("<td valign=\"top\">\n\n".toList) ++
            (col.map (fun cid => renderBlock c8Store 1 cid 0)).flatten ++
            ("\n</td>\n".toList))).flatten ++
        ("</tr></table>\n\n".toList) :=
  (c8_column_render c8Store 1 0 ("root".toList)
      { type := EType.column_list, content := ["a".toList, "b".toList] }
      rfl rfl (by decide) (by decide)).1 (by decide)

/-- C8 counterexample: a column list with one non-empty and one empty
column.  Exactly one column with content is present, yet the renderer
writes the table wrapper with two `td` cells (the empty column is still
counted), refuting the frozen claim's `exactly one non-empty column →
inline render, no table wrapper`. -/
theorem c8_counterexample :
    ((columnsContent c8BadStore (["a".toList, "b".toList])).filter
        (fun col => !col.isEmpty)).length = 1 ∧
    hasInfix ("<table>".toList) (renderBlock c8BadStore 2 ("root".toList) 0) = true ∧
    countOccs ("<td".toList) (renderBlock c8BadStore 2 ("root".toList) 0) = 2 := by
  refine ⟨by decide, by decide, by decide⟩

theorem exportIdsF_inv (recPage : List Char → ExpState → ExpState)
    (h : ∀ pid st, ExpInv st → ExpInv (recPage pid st)) :
    ∀ (l : List (List Char)) (st : ExpState), ExpInv st →
      ExpInv (exportIdsF recPage l st) := by
  intro l
  induction l with
  | nil => intro st hst; exact hst
  | cons x xs ih => intro st hst; exact ih (recPage x st) (h x st hst)

theorem exportBlocksF_inv (recPage : List Char → ExpState → ExpState)
    (qc : List ((List Char × List Char) × List (List Char)))
    (h : ∀ pid st, ExpInv st → ExpInv (recPage pid st)) :
    ∀ (bs : List PBlock) (pid : List Char) (st : ExpState), ExpInv st →
      ExpInv (exportBlocksF recPage qc bs pid st) := by
  intro bs
  induction bs with
  | nil => intro pid st hst; exact hst
  | cons bv rest ih =>
    intro pid st hst
    simp only [exportBlocksF]
    apply ih
    by_cases h1 : bv.alive = some false
    · rw [if_pos h1]; exact hst
    · rw [if_neg h1]
      by_cases h2 : bv.id = pid
      · rw [if_pos h2]; exact hst
      · rw [if_neg h2]
        have hA : ExpInv (if bv.type = PBType.child_page ∨ bv.type = PBType.page
            then recPage bv.id st else st) := by
          by_cases h3 : bv.type = PBType.child_page ∨ bv.type = PBType.page
          · rw [if_pos h3]; exact h _ _ hst
          · rw [if_neg h3]; exact hst
        by_cases h4 : bv.type = PBType.collection_view
        · rw [if_pos h4]
          rcases hcol : bv.collectionId with _ | cid <;>
            rcases hview : bv.viewIds with _ | ⟨v0, vs⟩ <;>
            simp only [hcol, hview]
          · exact hA
          · exact hA
          · exact hA
          · exact exportIdsF_inv recPage h _ _ hA
        · rw [if_neg h4]; exact hA

theorem exportPage_inv (w : World) (skips : List (List Char)) :
    ∀ (fuel : Nat) (pid : List Char) (st : ExpState), ExpInv st →
      ExpInv (exportPage w skips fuel pid st) := by
  intro fuel
  induction fuel with
  | zero => intro pid st hst; exact hst
  | succ n ih =>
    intro pid st hst
    simp only [exportPage]
    by_cases h1 : pid ∈ st.seen
    · rw [if_pos h1]; exact hst
    · rw [if_neg h1]
      obtain ⟨hnd, hsub⟩ := hst
      have hst1 : ExpInv ⟨pid :: st.seen, st.processed⟩ :=
        ⟨hnd, fun p hp => List.mem_cons_of_mem _ (hsub p hp)⟩
      cases hpd : alookup pid w.pages with
      | none => exact hst1
      | some pd =>
        dsimp only
        by_cases h2 : pd.title ∈ skips
        · rw [if_pos h2]; exact hst1
        · rw [if_neg h2]
          apply exportBlocksF_inv _ _ (fun q stq hq => ih q stq hq)
          have hpnp : pid ∉ st.processed := fun hm => h1 (hsub pid hm)
          constructor
          · simp [List.nodup_append, hnd, hpnp]
          · intro p hp
            rcases List.mem_append.mp hp with hp | hp
            · exact List.mem_cons_of_mem _ (hsub p hp)
            · have hp' : p = pid := by simpa using hp
              subst hp'
              exact List.mem_cons_self _ _

/-- C4.  Each page identifier is processed at most once: an id already in
`seen_pages` returns immediately with the state unchanged (no fetch, no
recursion); the invariant "the write log is duplicate-free and only holds
seen ids" is preserved by every export run; hence no id — in particular a
page reachable both as a direct child-page reference and as a collection
member — is written more than once. -/
theorem c4_export_dedup :
    (∀ (w : World) (skips : List (List Char)) (fuel : Nat) (pid : List Char)
        (st : ExpState), pid ∈ st.seen →
        exportPage w skips (fuel + 1) pid st = st) ∧
    (∀ (w : World) (skips : List (List Char)) (fuel : Nat) (pid : List Char)
        (st : ExpState), ExpInv st → ExpInv (exportPage w skips fuel pid st)) ∧
    (∀ (w : World) (skips : List (List Char)) (fuel : Nat) (pid q : List Char)
        (st : ExpState), ExpInv st →
        (exportPage w skips fuel pid st).processed.countP (fun p => p = q) ≤ 1) := by
  refine ⟨?_, ?_, ?_⟩
  · intro w skips fuel pid st h
    simp only [exportPage]
    rw [if_pos h]
  · intro w skips fuel pid st hst
    exact exportPage_inv w skips fuel pid st hst
  · intro w skips fuel pid q st hst
    exact List.nodup_iff_count_le_one.mp
      (exportPage_inv w skips fuel pid st hst).1 q

/-- C4 witness: in the dual-reachability world (`x` both a child page of
`root` and a collection member) the run writes `root` and `x` exactly once
each. -/
theorem c4_dedup_witness :
    ExpInv (exportPage c4World [] 3 ("root".toList) ⟨[], []⟩) ∧
    (exportPage c4World [] 3 ("root".toList) ⟨[], []⟩).processed =
      ["root".toList, "x".toList] ∧
    (exportPage c4World [] 3 ("root".toList) ⟨[], []⟩).processed.countP
      (fun p => p = ("x".toList)) = 1 :=
  ⟨c4_export_dedup.2.1 c4World [] 3 ("root".toList) ⟨[], []⟩ (by decide),
   by decide, by decide⟩

theorem pyStrip_eq_nil_iff {t : List Char} :
    pyStrip t = [] ↔ ∀ c ∈ t, isWs c = true := by
  unfold pyStrip
  rw [List.reverse_eq_nil_iff, List.dropWhile_eq_nil_iff]
  constructor
  · intro h c hc
    by_cases hmem : c ∈ t.dropWhile isWs
    · exact h c (List.mem_reverse.mpr hmem)
    · have hc' : c ∈ t.takeWhile isWs ++ t.dropWhile isWs := by
        rw [List.takeWhile_append_dropWhile]
        exact hc
      rcases List.mem_append.mp hc' with h1 | h1
      · exact List.mem_takeWhile_imp h1
      · exact absurd h1 hmem
  · intro h c hc
    exact h c ((List.dropWhile_sublist isWs).subset (List.mem_reverse.mp hc))

theorem pyStrip_join_ne {line : List Char} (h : ¬ pyStrip line = [])
    (others : List (List Char)) :
    ¬ pyStrip (joinSep ' ' (line :: others)) = [] := by
  intro hnil
  apply h
  apply pyStrip_eq_nil_iff.mpr
  intro c hc
  apply pyStrip_eq_nil_iff.mp hnil c
  cases others with
  | nil => simpa [joinSep] using hc
  | cons o os =>
    rw [show joinSep ' ' (line :: o :: os) = line ++ ' ' :: joinSep ' ' (o :: os)
      from rfl]
    exact List.mem_append_left _ hc

theorem paraCollect_eq (ls : List (List Char)) :
    paraCollect ls = (ls.takeWhile absorbCond, ls.dropWhile absorbCond) := by
  induction ls with
  | nil => rfl
  | cons x xs ih =>
    by_cases hx : absorbCond x = true
    · simp [paraCollect, hx, List.takeWhile_cons, List.dropWhile_cons, ih]
    · simp [paraCollect, hx, List.takeWhile_cons, List.dropWhile_cons]

/-- C7 (amended).  The paragraph accumulator absorbs exactly the maximal
run of following lines satisfying the while-loop's own raw checks — line
strips non-empty, does not start with `#`, `-`, `>`, a code fence or `![`,
and does not strip to `---` — joined into one paragraph with single
spaces.  This condition is NOT `none of dispatch rules 1-9 match`: the
numbered-list rule, the `<table>`/`<details>` tags and space-indented
constructs are not checked by the loop, so lines they match are still
absorbed (`c7_counterexample`). -/
theorem c7_paragraph_absorption :
    (∀ (ls : List (List Char)),
        paraCollect ls = (ls.takeWhile absorbCond, ls.dropWhile absorbCond)) ∧
    (∀ (tp tg : List Char → Option NBlock)
        (im : List Char → List Char → Option NBlock)
        (fuel : Nat) (line : List Char) (rest : List (List Char)),
        ¬ pyStrip line = [] →
        ¬ (("# ".toList).isPrefixOf line = true) →
        ¬ (("## ".toList).isPrefixOf line = true) →
        ¬ (("### ".toList).isPrefixOf line = true) →
        ¬ pyStrip line = ("---".toList) →
        ¬ (("- ".toList).isPrefixOf (pyStrip line) = true) →
        ¬ (numberedMatch line = true) →
        ¬ (("> ".toList).isPrefixOf line = true) →
        ¬ (("```".toList).isPrefixOf line = true) →
        ¬ (("<table>".toList).isPrefixOf (pyStrip line) = true) →
        ¬ (("<details>".toList).isPrefixOf (pyStrip line) = true) →
        ¬ (("![".toList).isPrefixOf (pyStrip line) = true) →
        ¬ ((embedPre1.isPrefixOf (pyStrip line) ||
            embedPre2.isPrefixOf (pyStrip line)) = true) →
        ¬ (bookmarkMatch (pyStrip line) = true) →
        parseMd tp tg im (fuel + 1) (line :: rest) =
          NBlock.paragraph (joinSep ' ' (line :: rest.takeWhile absorbCond)) ::
            parseMd tp tg im fuel (rest.dropWhile absorbCond)) := by
  constructor
  · exact paraCollect_eq
  · intro tp tg im fuel line rest h0 h1 h2 h3 h4 h5 h6 h7 h8 h9 h10 h11 h12 h13
    simp only [parseMd]
    rw [if_neg h0, if_neg h1, if_neg h2, if_neg h3, if_neg h4, if_neg h5,
      if_neg h6, if_neg h7, if_neg h8, if_neg h9, if_neg h10, if_neg h11,
      if_neg h12, if_neg h13]
    simp only [paraCollect_eq]
    rw [if_neg (pyStrip_join_ne h0 _)]

/-- C7 witness: `hello` opens a paragraph that absorbs `world` and stops at
the blank line. -/
theorem c7_absorb_witness :
    parseMd (fun _ => none) (fun _ => none) (fun _ _ => none) 3
        ["hello".toList, "world".toList, "".toList] =
      NBlock.paragraph (joinSep ' ' ("hello".toList ::
          (["world".toList, "".toList].takeWhile absorbCond))) ::
        parseMd (fun _ => none) (fun _ => none) (fun _ _ => none) 2
          (["world".toList, "".toList].dropWhile absorbCond) :=
  c7_paragraph_absorption.2 (fun _ => none) (fun _ => none) (fun _ _ => none) 2
    ("hello".toList) ["world".toList, "".toList]
    (by decide) (by decide) (by decide) (by decide) (by decide) (by decide)
    (by decide) (by decide) (by decide) (by decide) (by decide) (by decide)
    (by decide) (by decide)

/-- C7 counterexample: the line `2. two` matches the numbered-list dispatch
rule, yet the paragraph opened by `hello` absorbs it, producing the single
paragraph `hello 2. two` instead of a paragraph plus a numbered item —
refuting `absorbed iff no rule 1-9 matches`. -/
theorem c7_counterexample :
    parseMd (fun _ => none) (fun _ => none) (fun _ _ => none) 3
        ["hello".toList, "2. two".toList] =
      [NBlock.paragraph ("hello 2. two".toList)] ∧
    numberedMatch ("2. two".toList) = true ∧
    absorbCond ("2. two".toList) = true := by
  refine ⟨by decide, by decide, by decide⟩

end NotionExport
